import Mathlib

set_option maxHeartbeats 1600000

/-!
Verification of the attribute-flattening walker and rule-evaluation engine
of the go-structs repository (packages structs and validators).

The Go code is shallowly embedded: Go runtime values become the GoValue
inductive, reflect.StructField becomes SField, and each Go function is
translated to a Lean function of the same name.  Machine integers are
modelled as Int, float64 as Rat, Go maps as association lists with
overwrite-on-insert, and external library calls (mail.ParseAddress,
time.Parse, currency.ParseISO) as explicit predicates marked as modelled
from the spec.
-/

namespace GoStructs

/-- Static field descriptor: the parts of reflect.StructField the repository
reads (native name, raw tag string, anonymous flag). -/
structure SField where
  Name : String
  Tag : String
  Anonymous : Bool
deriving DecidableEq, Repr

instance : Inhabited SField := ⟨⟨"", "", false⟩⟩

/-- Shallow embedding of the Go values the walker can encounter: string,
int, float64 (as Rat), bool, pointer (possibly nil), struct (ordered field
list), slice or array, and the google/uuid UUID value (an array of 16 bytes
with its own reflect.Type, here carrying its byte values as GoValue ints). -/
inductive GoValue : Type where
  | str (s : String)
  | int (n : Int)
  | float (q : Rat)
  | bool (b : Bool)
  | ptr (v : Option GoValue)
  | strct (fields : List (SField × GoValue))
  | slice (elems : List GoValue)
  | uuid16 (bytes : List GoValue)

/-- The reflect.Kind values distinguished by the repository. -/
inductive GoKind : Type where
  | kString
  | kInt
  | kFloat
  | kBool
  | kPointer
  | kStruct
  | kSlice
  | kArray
deriving DecidableEq, Repr

/-- reflect.Value.Kind for the embedded values. -/
def GoValue.kind : GoValue → GoKind
  | .str _ => .kString
  | .int _ => .kInt
  | .float _ => .kFloat
  | .bool _ => .kBool
  | .ptr _ => .kPointer
  | .strct _ => .kStruct
  | .slice _ => .kSlice
  | .uuid16 _ => .kArray

/-- PointerElement (helpers): repeatedly unwrap pointer values; a nil
pointer stops the loop and reports the "nil pointer" error (second
component false).  Non-pointer values are returned unchanged with no
error. -/
def PointerElement : GoValue → GoValue × Bool
  | .ptr none => (.ptr none, false)
  | .ptr (some v) => PointerElement v
  | v => (v, true)

/-- Contains (collection helpers): membership by equality. -/
def Contains (collection : List String) (element : String) : Bool :=
  match collection with
  | [] => false
  | item :: rest => if item = element then true else Contains rest element

/-- Character class accepted in a tag key by reflect.StructTag parsing:
strictly above space, not a colon, quote or DEL. -/
def tagNameChar (c : Char) : Bool :=
  32 < c.toNat && c ≠ ':' && c ≠ '"' && c.toNat ≠ 127

/-- Parser state for the reflect.StructTag scan: reading a key (with the
characters read so far) or reading a quoted value for a key. -/
inductive TagMode : Type where
  | name (acc : List Char)
  | value (key : List Char) (acc : List Char)

/-- The reflect.StructTag.Lookup loop: skip spaces, read a key, expect
a colon and an opening quote, read the quoted value (a backslash escapes
the following character; the repository's tags use no escape sequences,
so the remaining strconv.Unquote escape forms are not modelled), and
either return the value or continue with the rest of the tag. -/
def tagScan (key : List Char) : List Char → TagMode → Option (List Char)
  | [], _ => none
  | c :: rest, .name acc =>
    if tagNameChar c then tagScan key rest (.name (acc ++ [c]))
    else if c = ' ' then (if acc.isEmpty then tagScan key rest (.name []) else none)
    else if c = ':' then
      match rest with
      | '"' :: rest2 => if acc.isEmpty then none else tagScan key rest2 (.value acc [])
      | _ => none
    else none
  | c :: rest, .value name acc =>
    if c = '"' then (if name = key then some acc else tagScan key rest (.name []))
    else if c = '\\' then
      match rest with
      | c2 :: rest2 => tagScan key rest2 (.value name (acc ++ [c2]))
      | [] => none
    else tagScan key rest (.value name (acc ++ [c]))

/-- reflect.StructTag.Lookup on strings. -/
def tagLookup (tag : String) (key : String) : Option String :=
  (tagScan key.data tag.data (.name [])).map fun l => String.mk l

/-- reflect.StructTag.Get: the looked-up value or the empty string. -/
def tagGet (tag : String) (key : String) : String :=
  (tagLookup tag key).getD ""

/-- strings.Split with a single-character separator (the only form the
repository uses).  As in Go, the result has one piece more than the number
of separators and splitting the empty string yields one empty piece. -/
def splitOnCharL (sep : Char) : List Char → List (List Char)
  | [] => [[]]
  | c :: rest =>
    if c = sep then [] :: splitOnCharL sep rest
    else
      match splitOnCharL sep rest with
      | [] => [[c]]
      | piece :: more => (c :: piece) :: more

/-- strings.Split on strings (single-character separator). -/
def goSplit (s : String) (sep : Char) : List String :=
  (splitOnCharL sep s.data).map String.mk

/-- strings.SplitN(s, sep, 2) represented as the optional split at the
first occurrence of the separator. -/
def splitFirstL (sep : Char) : List Char → Option (List Char × List Char)
  | [] => none
  | c :: rest =>
    if c = sep then some ([], rest)
    else (splitFirstL sep rest).map fun p => (c :: p.1, p.2)

/-- GetTagValue: the first comma-delimited token of the named tag, falling
back to the field's native name when the token is empty or the tag is
absent. -/
def GetTagValue (sf : SField) (tagName : String) : String :=
  match goSplit (tagGet sf.Tag tagName) ',' with
  | t0 :: _ => if t0 ≠ "" then t0 else sf.Name
  | [] => sf.Name

/-- GetJSONTagValue: the first value of the json tag. -/
def GetJSONTagValue (sf : SField) : String :=
  GetTagValue sf "json"

/-- GetTagValues: every comma-delimited token of the named tag, or the
empty list when the tag is absent. -/
def GetTagValues (sf : SField) (tagName : String) : List String :=
  match tagLookup sf.Tag tagName with
  | some r => goSplit r ','
  | none => []

/-- Insertion with Go map semantics: overwrite an existing key, otherwise
append the binding. -/
def mapInsertStr (m : List (String × String)) (k v : String) : List (String × String) :=
  match m with
  | [] => [(k, v)]
  | (k', v') :: rest => if k' = k then (k, v) :: rest else (k', v') :: mapInsertStr rest k v

/-- Lookup in an association list built by mapInsertStr. -/
def assocLookup (m : List (String × String)) (k : String) : Option String :=
  match m with
  | [] => none
  | (k', v') :: rest => if k' = k then some v' else assocLookup rest k

/-- GetTag: the key-to-value map of a comma-separated tag; each token is
split once on the equals sign, a bare token mapping to the empty string. -/
def GetTag (sf : SField) (tagName : String) : List (String × String) :=
  match tagLookup sf.Tag tagName with
  | none => []
  | some r =>
    (goSplit r ',').foldl
      (fun values rl =>
        match splitFirstL '=' rl.data with
        | none => mapInsertStr values rl ""
        | some (k, v) => mapInsertStr values (String.mk k) (String.mk v))
      []

/-- Literal match: if s starts with lit, return the rest. -/
def matchLit : List Char → List Char → Option (List Char)
  | [], s => some s
  | _, [] => none
  | c :: lit, c' :: s => if c' = c then matchLit lit s else none

/-- The suffix part of each expansion of the RemoveValuesFromTag pattern:
an optional equals sign, the value with its final character optional, and
an optional comma, listed in the order an RE2 leftmost-first backtracking
search with greedy optionals tries them (later choice points backtrack
first, so the trailing comma varies fastest). -/
def patSuffixes (vInit : List Char) (vLast : Option Char) : List (List Char) :=
  let vs : List (List Char) :=
    match vLast with
    | some c => [vInit ++ [c], vInit]
    | none => [vInit]
  [['='], []].flatMap fun b => vs.flatMap fun v => [[','], []].map fun d => b ++ v ++ d

/-- All expansions of the pattern ",?key=?value?,?" compiled by
RemoveValuesFromTag (the pattern is a concatenation of literals and
single-character greedy optionals, so its matches at a position are
exactly the prefix matches of these literal expansions, tried in
backtracking preference order: leading comma most significant). -/
def patCandidates (key vInit : List Char) (vLast : Option Char) : List (List Char) :=
  [[','], []].flatMap fun p => (patSuffixes vInit vLast).map fun q => p ++ key ++ q

/-- Try each literal candidate in order and return the remaining suffix
after the first one that is a prefix of s. -/
def firstMatch : List (List Char) → List Char → Option (List Char)
  | [], _ => none
  | cand :: more, s =>
    match matchLit cand s with
    | some rest => some rest
    | none => firstMatch more s

/-- Matcher for the compiled pattern of RemoveValuesFromTag at one
position: the leftmost-first greedy regex match, expressed over the
literal expansions. -/
def patMatchAt (key vInit : List Char) (vLast : Option Char) (s : List Char) :
    Option (List Char) :=
  firstMatch (patCandidates key vInit vLast) s

theorem matchLit_length_eq :
    ∀ (lit s r : List Char), matchLit lit s = some r → r.length + lit.length = s.length := by
  intro lit
  induction lit with
  | nil => intro s r h; simp [matchLit] at h; subst h; simp
  | cons c lit ih =>
    intro s r h
    match s with
    | [] => simp [matchLit] at h
    | c' :: s' =>
      simp [matchLit] at h
      have := ih s' r h.2
      simp [List.length_cons]
      omega

theorem firstMatch_length_lt (cands : List (List Char)) (s r : List Char)
    (hne : ∀ cand ∈ cands, cand ≠ [])
    (h : firstMatch cands s = some r) : r.length < s.length := by
  induction cands with
  | nil => simp [firstMatch] at h
  | cons cand more ih =>
    simp only [firstMatch] at h
    match hm : matchLit cand s with
    | some rest =>
      rw [hm] at h
      simp at h
      subst h
      have hlen := matchLit_length_eq cand s _ hm
      have hc : cand ≠ [] := hne cand (by simp)
      have : 1 ≤ cand.length := by
        cases cand with
        | nil => exact absurd rfl hc
        | cons _ _ => simp
      omega
    | none =>
      rw [hm] at h
      exact ih (fun c hc => hne c (by simp [hc])) h

theorem patCandidates_shape (key vInit : List Char) (vLast : Option Char) :
    ∀ x ∈ patCandidates key vInit vLast, ∃ p q, x = p ++ key ++ q := by
  intro x hx
  unfold patCandidates at hx
  rw [List.mem_flatMap] at hx
  obtain ⟨p, _, hx⟩ := hx
  rw [List.mem_map] at hx
  obtain ⟨q, _, rfl⟩ := hx
  exact ⟨p, q, rfl⟩

theorem patMatchAt_length_lt (key vInit : List Char) (vLast : Option Char)
    (hkey : key ≠ []) (s r : List Char)
    (h : patMatchAt key vInit vLast s = some r) : r.length < s.length := by
  refine firstMatch_length_lt _ s r ?_ h
  intro cand hc
  obtain ⟨p, q, rfl⟩ := patCandidates_shape key vInit vLast cand hc
  cases key with
  | nil => exact absurd rfl hkey
  | cons c cs => simp

/-- regexp.ReplaceAllString with the RemoveValuesFromTag pattern and an
empty replacement: scan left to right, replacing each leftmost match and
continuing after it. -/
def replaceAllL (key vInit : List Char) (vLast : Option Char) (hkey : key ≠ []) :
    List Char → List Char
  | [] => []
  | c :: rest =>
    match hm : patMatchAt key vInit vLast (c :: rest) with
    | some rem => replaceAllL key vInit vLast hkey rem
    | none => c :: replaceAllL key vInit vLast hkey rest
termination_by s => s.length
decreasing_by
  · have := patMatchAt_length_lt key vInit vLast hkey _ rem hm
    simp only [List.length_cons] at this ⊢
    omega
  · simp only [List.length_cons]
    omega

/-- The literal name of the validation tag. -/
def VALIDATION_TAG_KEYWORD : String := "validate"

/-- Tag attributes that should be excluded when a tag is propagated to
synthesized list-element attributes. -/
def NON_INHERITABLE_TAG_ATTRIBUTES : List String := ["max", "min"]

/-- RemoveValuesFromTag: for each key of removeList present in the parsed
tag section, remove every occurrence of the pattern ",?key=?value?,?"
from the raw tag string (the second question mark applies only to the last
character of the value, exactly as produced by fmt.Sprintf feeding
regexp.MustCompile; regex metacharacters inside the value are not modelled,
the repository only strips alphanumeric values). -/
def RemoveValuesFromTag (tag : String) (removeList : List String) (field : SField) :
    String :=
  let t := GetTag field tag
  removeList.foldl
    (fun result i =>
      match assocLookup t i with
      | some v =>
        match hk : i.data with
        | [] => result
        | c :: cs =>
          String.mk (replaceAllL (c :: cs) v.data.dropLast v.data.getLast? (by simp) result.data)
      | none => result)
    field.Tag

/-- strings.TrimPrefix(s, "."): drop one leading dot if present. -/
def trimLeadingDot (s : String) : String :=
  match s.data with
  | '.' :: rest => String.mk rest
  | _ => s

/-- strings.TrimSuffix(s, "."): drop one trailing dot if present. -/
def trimTrailingDot (s : String) : String :=
  match s.data.getLast? with
  | some '.' => String.mk s.data.dropLast
  | _ => s

/-- Decimal digits of a natural number, most significant first. -/
def natDigitsL (n : Nat) : List Char :=
  if n < 10 then [Char.ofNat (48 + n)]
  else natDigitsL (n / 10) ++ [Char.ofNat (48 + n % 10)]
termination_by n
decreasing_by
  exact Nat.div_lt_self (by omega) (by omega)

/-- fmt.Sprint of an int: decimal digits with a leading minus sign for
negative values. -/
def intSprint (n : Int) : String :=
  if n < 0 then String.mk ('-' :: natDigitsL (-n).toNat)
  else String.mk (natDigitsL n.toNat)

/-- StructAttribute: abstracts both reflect.Value and reflect.StructField.
Parents is the ancestor chain root first, Children the nested attributes
attached by the walker, ListPosition the position inside an enclosing list
(negative when not inside a list) and isPrimitive marks an attribute
synthesized for one element of a list of primitive values. -/
inductive StructAttribute : Type where
  | mk (Value : GoValue) (Field : SField) (Parents : List StructAttribute)
      (Children : List StructAttribute) (ListPosition : Int) (isPrimitive : Bool)

def StructAttribute.Value : StructAttribute → GoValue
  | .mk v _ _ _ _ _ => v

def StructAttribute.Field : StructAttribute → SField
  | .mk _ f _ _ _ _ => f

def StructAttribute.Parents : StructAttribute → List StructAttribute
  | .mk _ _ p _ _ _ => p

def StructAttribute.Children : StructAttribute → List StructAttribute
  | .mk _ _ _ c _ _ => c

def StructAttribute.ListPosition : StructAttribute → Int
  | .mk _ _ _ _ l _ => l

def StructAttribute.isPrimitive : StructAttribute → Bool
  | .mk _ _ _ _ _ b => b

/-- Replace the Children field (models the Go assignment
attributes[i].Children = ...). -/
def StructAttribute.withChildren : StructAttribute → List StructAttribute → StructAttribute
  | .mk v f p _ l b, cs => .mk v f p cs l b

/-- FullName: the name of the field scoped under its parents.  With no
parents it is the json tag value; otherwise the last parent's full name,
followed by the bracketed list position when defined, and - unless the
attribute is a synthesized primitive element - a dot and the field's own
json name, with a stray leading or trailing dot trimmed. -/
def StructAttribute.FullName : StructAttribute → String
  | .mk _ field [] _ _ _ => GetJSONTagValue field
  | .mk _ field (p :: ps) _ listPos isPrim =>
    let scope0 := ((p :: ps).getLast (by simp)).FullName
    let scope := if 0 ≤ listPos then scope0 ++ "[" ++ intSprint listPos ++ "]" else scope0
    if isPrim then scope
    else trimTrailingDot (trimLeadingDot (scope ++ "." ++ GetJSONTagValue field))
termination_by sa => sizeOf sa
decreasing_by
  have h1 : (p :: ps).getLast (by simp) ∈ p :: ps := List.getLast_mem _
  have h2 := List.sizeOf_lt_of_mem h1
  simp only [StructAttribute.mk.sizeOf_spec]
  omega

mutual

/-- SkipsPastLastChild: zero for a childless attribute, otherwise one plus
the number of children plus, for every child, one plus its own
SkipsPastLastChild (the loop n := 1 + len(children); n += 1 + skip(child)). -/
def StructAttribute.SkipsPastLastChild : StructAttribute → Nat
  | .mk _ _ _ children _ _ =>
    if children.length = 0 then 0
    else 1 + children.length + sumSkips children

/-- The loop body of SkipsPastLastChild: the sum over the children of one
plus each child's own SkipsPastLastChild. -/
def sumSkips : List StructAttribute → Nat
  | [] => 0
  | c :: rest => (1 + c.SkipsPastLastChild) + sumSkips rest

end

/-- The isListOfPrimitives computation of the slice/array branch: decided
once from the first element's kind and the google-UUID type test (an empty
list keeps the initial false). -/
def isGoogleUUID : GoValue → Bool
  | .uuid16 _ => true
  | _ => false

def isListOfPrimitives (value : GoValue) : Bool :=
  match value with
  | .slice (e :: _) => !(e.kind = GoKind.kStruct) && !(isGoogleUUID value)
  | .uuid16 (e :: _) => !(e.kind = GoKind.kStruct) && !(isGoogleUUID value)
  | _ => false

/-- The filter-tag inclusion test of getAttributes: initialized to whether
filterTags is empty, then overwritten by the Lookup result of each listed
tag in turn, so the last listed tag decides. -/
def shouldBeIncluded (filterTags : List String) (rsf : SField) : Bool :=
  filterTags.foldl (fun _ tag => (tagLookup rsf.Tag tag).isSome) filterTags.isEmpty

/-- Update the last element of a list in place (models the Go assignment
attributes[len(attributes)-1].Children = ...). -/
def updLast (l : List StructAttribute) (f : StructAttribute → StructAttribute) :
    List StructAttribute :=
  match l with
  | [] => []
  | [a] => [f a]
  | a :: rest => a :: updLast rest f

theorem sizeOf_unwrapped_field_lt (rsf : SField) (v0 : GoValue)
    (rest : List (SField × GoValue)) (w : GoValue)
    (hw : sizeOf w ≤ sizeOf v0) : sizeOf w < sizeOf ((rsf, v0) :: rest) := by
  simp only [List.cons.sizeOf_spec, Prod.mk.sizeOf_spec]
  omega

theorem sizeOf_PointerElement_le (v : GoValue) : sizeOf (PointerElement v).1 ≤ sizeOf v := by
  match v with
  | .ptr none => simp [PointerElement]
  | .ptr (some w) =>
    have ih := sizeOf_PointerElement_le w
    simp only [PointerElement]
    simp only [GoValue.ptr.sizeOf_spec, Option.some.sizeOf_spec]
    omega
  | .str s => simp [PointerElement]
  | .int n => simp [PointerElement]
  | .float q => simp [PointerElement]
  | .bool b => simp [PointerElement]
  | .strct fs => simp [PointerElement]
  | .slice es => simp [PointerElement]
  | .uuid16 bs => simp [PointerElement]

mutual

/-- getAttributes (parser.go): fetch all the fields of the given struct.
The initial pointer unwrap is expressed by recursing through pointer
constructors; any non-struct value yields no attributes. -/
def getAttributes (rv : GoValue) (parents : List StructAttribute)
    (filterTags ignoredFields : List String) (currentIndex : Int) :
    List StructAttribute :=
  match rv with
  | .ptr (some v) => getAttributes v parents filterTags ignoredFields currentIndex
  | .strct fields => walkFields fields parents filterTags ignoredFields currentIndex []
  | _ => []
termination_by sizeOf rv
decreasing_by
  · simp only [GoValue.ptr.sizeOf_spec, Option.some.sizeOf_spec]
    omega
  · simp only [GoValue.strct.sizeOf_spec]
    omega

/-- The per-field loop of getAttributes, threading the accumulated
attribute list (the source's in-place Children assignment on the last
accumulated attribute becomes updLast). -/
def walkFields (fields : List (SField × GoValue)) (parents : List StructAttribute)
    (filterTags ignoredFields : List String) (currentIndex : Int)
    (attributes : List StructAttribute) : List StructAttribute :=
  match fields with
  | [] => attributes
  | (rsf, v0) :: rest =>
    let value := (PointerElement v0).1
    let sa : StructAttribute := .mk value rsf parents [] currentIndex false
    if rsf.Anonymous then
      let anonValues := getAttributes value parents filterTags ignoredFields currentIndex
      walkFields rest parents filterTags ignoredFields currentIndex (attributes ++ anonValues)
    else if !(shouldBeIncluded filterTags rsf) || Contains ignoredFields rsf.Name then
      walkFields rest parents filterTags ignoredFields currentIndex attributes
    else
      let attributes1 := attributes ++ [sa]
      let attributes2 :=
        match hv : value with
        | .strct _ =>
          attributes1 ++ getAttributes value (parents ++ [sa]) filterTags ignoredFields (-1)
        | .slice elems =>
          walkElems elems 0 (isListOfPrimitives value) sa (parents ++ [sa])
            filterTags ignoredFields attributes1
        | .uuid16 bytes =>
          walkElems bytes 0 (isListOfPrimitives value) sa (parents ++ [sa])
            filterTags ignoredFields attributes1
        | _ => attributes1
      walkFields rest parents filterTags ignoredFields currentIndex attributes2
termination_by sizeOf fields
decreasing_by all_goals
  (have h1 := sizeOf_PointerElement_le v0
   try rw [show (PointerElement v0).1 = _ from hv] at h1
   try simp only [GoValue.slice.sizeOf_spec, GoValue.uuid16.sizeOf_spec,
     GoValue.strct.sizeOf_spec] at h1
   have h2 := sizeOf_PointerElement_le v0
   simp only [List.cons.sizeOf_spec, Prod.mk.sizeOf_spec]
   omega)

/-- The per-element loop of the slice/array branch of getAttributes.
For a list of primitives each element becomes a synthesized child carrying
the parent's tag with the non-inheritable attributes stripped; otherwise
each element is walked as a new sub-root.  In both branches the Children
of the last accumulated attribute are overwritten, exactly as in the
source. -/
def walkElems (elems : List GoValue) (l : Nat) (isPrims : Bool) (sa : StructAttribute)
    (newParents : List StructAttribute) (filterTags ignoredFields : List String)
    (attributes : List StructAttribute) : List StructAttribute :=
  match elems with
  | [] => attributes
  | el :: restEls =>
    if isPrims then
      let child0 : StructAttribute := .mk el default newParents [] (Int.ofNat l) true
      let childField : SField :=
        { Name := child0.FullName, Tag := sa.Field.Tag, Anonymous := false }
      let childTag :=
        RemoveValuesFromTag VALIDATION_TAG_KEYWORD NON_INHERITABLE_TAG_ATTRIBUTES sa.Field
      let child : StructAttribute :=
        .mk el { childField with Tag := childTag } newParents [] (Int.ofNat l) true
      let attributes' := updLast attributes (fun a => a.withChildren (sa.Children ++ [child]))
      walkElems restEls (l + 1) isPrims sa newParents filterTags ignoredFields
        (attributes' ++ [child])
    else
      let nestedValues := getAttributes el newParents filterTags ignoredFields (Int.ofNat l)
      let attributes' :=
        if attributes.length ≠ 0 then
          updLast attributes (fun a => a.withChildren (sa.Children ++ nestedValues))
        else attributes
      walkElems restEls (l + 1) isPrims sa newParents filterTags ignoredFields
        (attributes' ++ nestedValues)
termination_by sizeOf elems
decreasing_by
  · simp only [List.cons.sizeOf_spec]
    omega
  · simp only [List.cons.sizeOf_spec]
    omega
  · simp only [List.cons.sizeOf_spec]
    omega

end

/-- GetAttributes (parser.go): the public entry point, starting with no
parents and a current index of zero. -/
def GetAttributes (entity : GoValue) (filterTags : List String)
    (ignoredFields : List String) : List StructAttribute :=
  getAttributes entity [] filterTags ignoredFields 0

/-- reflect.Value.String for string-kind values (the validators only call
it under a String kind case). -/
def GoValue.goString : GoValue → String
  | .str s => s
  | _ => ""

/-- Rule keyword constants of the validators package. -/
def CURRENCY : String := "currency"

def DATETIME : String := "datetime"

def EMAIL : String := "email"

def EQUAL : String := "eq"

def IN : String := "in"

def MAX : String := "max"

def MIN : String := "min"

def REGEX : String := "regex"

def URL : String := "url"

def UUID : String := "uuid"

/-- The Errors map of the validators package; a missing key yields the Go
zero value (the empty string). -/
def Errors (key : String) : String :=
  if key = "immutable" then "IMMUTABLE_VALUE"
  else if key = "format" then "INVALID_FORMAT"
  else if key = "length" then "INVALID_LENGTH"
  else if key = "type" then "INVALID_TYPE"
  else if key = "value" then "INVALID_VALUE"
  else ""

structure ValidationOptions where
  Ignore : List String
  SkipRules : List String
deriving Repr

instance : Inhabited ValidationOptions := ⟨⟨[], []⟩⟩

def isDigitChar (c : Char) : Bool :=
  48 ≤ c.toNat && c.toNat ≤ 57

/-- Value of a nonempty all-digit run; none otherwise. -/
def parseDigitsL (l : List Char) : Option Nat :=
  if l.isEmpty then none
  else if l.all isDigitChar then some (l.foldl (fun acc c => acc * 10 + (c.toNat - 48)) 0)
  else none

/-- strconv.ParseInt with base 10 and 64-bit size: optional sign, decimal
digits, 64-bit range check. -/
def parseGoInt (s : String) : Option Int :=
  let (sign, l) :=
    match s.data with
    | '-' :: rest => ((-1 : Int), rest)
    | '+' :: rest => ((1 : Int), rest)
    | l => ((1 : Int), l)
  match parseDigitsL l with
  | none => none
  | some n =>
    let v := sign * Int.ofNat n
    if -(2 ^ 63) ≤ v ∧ v ≤ 2 ^ 63 - 1 then some v else none

/-- The mantissa of a Go decimal float literal: digits, digits.digits,
digits. or .digits. -/
def parseMantissaL (l : List Char) : Option Rat :=
  match splitFirstL '.' l with
  | none => (parseDigitsL l).map fun n => (n : Rat)
  | some (ip, fp) =>
    if ip.isEmpty && fp.isEmpty then none
    else if !(ip.all isDigitChar) || !(fp.all isDigitChar) then none
    else
      let ipv : Nat := ip.foldl (fun acc c => acc * 10 + (c.toNat - 48)) 0
      let fpv : Nat := fp.foldl (fun acc c => acc * 10 + (c.toNat - 48)) 0
      some ((ipv : Rat) + (fpv : Rat) / ((10 : Rat) ^ fp.length))

/-- An exponent part (after the e or E): optional sign and digits. -/
def parseExpL (l : List Char) : Option Int :=
  match l with
  | '+' :: rest => (parseDigitsL rest).map Int.ofNat
  | '-' :: rest => (parseDigitsL rest).map fun n => -(Int.ofNat n)
  | rest => (parseDigitsL rest).map Int.ofNat

/-- strconv.ParseFloat for the decimal forms that can appear in a
validation tag: optional sign, decimal mantissa, optional decimal
exponent.  The hexadecimal, infinity and NaN forms accepted by Go are not
modelled, and the exact rational value stands in for the nearest float64
(all thresholds in the repository are small and exactly representable). -/
def parseGoFloat (s : String) : Option Rat :=
  let (sign, l) :=
    match s.data with
    | '-' :: rest => ((-1 : Rat), rest)
    | '+' :: rest => ((1 : Rat), rest)
    | l => ((1 : Rat), l)
  let (mant, ex) :=
    match splitFirstL 'e' l with
    | some (m, e) => (m, some e)
    | none =>
      match splitFirstL 'E' l with
      | some (m, e) => (m, some e)
      | none => (l, none)
  match parseMantissaL mant with
  | none => none
  | some m =>
    match ex with
    | none => some (sign * m)
    | some e =>
      match parseExpL e with
      | none => none
      | some ev =>
        if 0 ≤ ev then some (sign * m * (10 : Rat) ^ ev.toNat)
        else some (sign * m / (10 : Rat) ^ (-ev).toNat)

/-- parsedLengthAttribute: an empty rule value is the "required length
attribute" error, otherwise strconv.ParseFloat. -/
def parsedLengthAttribute (value : String) : Option Rat :=
  if value = "" then none else parseGoFloat value

def isHexLower (c : Char) : Bool :=
  (48 ≤ c.toNat && c.toNat ≤ 57) || (97 ≤ c.toNat && c.toNat ≤ 102)

/-- IsUUID: the anchored pattern of 8-4-4-4-12 lowercase hex groups
separated by hyphens, expressed by splitting on the hyphen. -/
def IsUUID (value : String) : Bool :=
  match splitOnCharL '-' value.data with
  | [g1, g2, g3, g4, g5] =>
    g1.length = 8 && g2.length = 4 && g3.length = 4 && g4.length = 4 && g5.length = 12 &&
      (g1 ++ g2 ++ g3 ++ g4 ++ g5).all isHexLower
  | _ => false

/-- The integer branch of IsIn: any unparsable candidate aborts with
false, a matching candidate stops with true. -/
def isInIntLoop (n : Int) : List String → Bool
  | [] => false
  | v :: rest =>
    match parseGoInt v with
    | none => false
    | some vf => if vf = n then true else isInIntLoop n rest

/-- The float branch of IsIn. -/
def isInFloatLoop (q : Rat) : List String → Bool
  | [] => false
  | v :: rest =>
    match parseGoFloat v with
    | none => false
    | some vf => if vf = q then true else isInFloatLoop q rest

/-- IsIn: string values by exact membership, integer and float values by
parsing each accepted candidate; every other kind is false. -/
def IsIn (value : GoValue) (acceptedValues : List String) : Bool :=
  match value with
  | .str s => Contains acceptedValues s
  | .int n => isInIntLoop n acceptedValues
  | .float q => isInFloatLoop q acceptedValues
  | _ => false

/-- IsValidLength: strings, slices, arrays use their length (bytes for a
string), ints and floats their numeric value, anything else the marker
-42; then min is value at least the threshold, max at most, and any other
rule exact equality.  Go maps also use their length but maps are not part
of the embedding. -/
def IsValidLength (v : GoValue) (length : Rat) (rule : String) : Bool :=
  let value : Rat :=
    match v with
    | .str s => (s.utf8ByteSize : Rat)
    | .slice es => (es.length : Rat)
    | .uuid16 bs => (bs.length : Rat)
    | .int n => (n : Rat)
    | .float q => q
    | _ => (-42 : Rat)
  if rule = MIN then decide (length ≤ value)
  else if rule = MAX then decide (value ≤ length)
  else decide (value = length)

/-- Modelled from the spec: net/mail.ParseAddress (external library), used
for the email format rule; abstracted to an at-sign with nonempty local
and domain parts.  No claim depends on the precise address grammar. -/
def parsesAsEmail (s : String) : Bool :=
  match splitFirstL '@' s.data with
  | some (lp, dp) => !lp.isEmpty && !dp.isEmpty
  | none => false

/-- Modelled from the spec: time.Parse with the RFC3339 layout (standard
library), used for the datetime format rule; abstracted to the shape
YYYY-MM-DDTHH:MM:SS followed by Z or a +hh:mm / -hh:mm zone, with an
optional fractional-seconds part.  No claim depends on the precise
calendar validation. -/
def parsesAsRFC3339 (s : String) : Bool :=
  let l := s.data
  let zoneOk : List Char → Bool := fun z =>
    match z with
    | ['Z'] => true
    | [sgn, h1, h2, ':', m1, m2] =>
      (sgn = '+' || sgn = '-') && [h1, h2, m1, m2].all isDigitChar
    | _ => false
  match l with
  | y1 :: y2 :: y3 :: y4 :: '-' :: m1 :: m2 :: '-' :: d1 :: d2 :: 'T' :: h1 :: h2 :: ':'
      :: mi1 :: mi2 :: ':' :: s1 :: s2 :: z =>
    [y1, y2, y3, y4, m1, m2, d1, d2, h1, h2, mi1, mi2, s1, s2].all isDigitChar &&
      (match z with
       | '.' :: fz =>
         let frac := fz.takeWhile isDigitChar
         !frac.isEmpty && zoneOk (fz.dropWhile isDigitChar)
       | _ => zoneOk z)
  | _ => false

/-- Modelled from the spec: currency.ParseISO from golang.org/x/text
(external library), used for the currency rule; abstracted to membership
in a fixed table containing the codes the repository's tests exercise.
No claim depends on the full ISO 4217 table. -/
def parsesAsISOCurrency (s : String) : Bool :=
  Contains ["USD", "EUR", "BRL", "AUD", "GBP", "JPY", "CHF", "CAD"] s

/-- The rule part of a validation rule: everything before the first equals
sign (strings.IndexByte), or the whole rule when there is none. -/
def ruleTypeOf (validationRule : String) : String :=
  match splitFirstL '=' validationRule.data with
  | some (t, _) => String.mk t
  | none => validationRule

/-- The value part of a validation rule: everything after the first equals
sign, or the empty string when there is none. -/
def ruleValueOf (validationRule : String) : String :=
  match splitFirstL '=' validationRule.data with
  | some (_, v) => String.mk v
  | none => ""

/-- The rule loop of ValidateAttribute: each rule is split at its first
equals sign into type and value, skipped when listed in SkipRules, and
dispatched; continue means recursing on the remaining rules with the
accumulator unchanged, every other outcome returns. -/
def validateRules (attrib : StructAttribute) (options : ValidationOptions)
    (validations : List String) : List String → List String
  | [] => validations
  | validationRule :: rest =>
    let ruleType := ruleTypeOf validationRule
    let ruleValue := ruleValueOf validationRule
    if Contains options.SkipRules ruleType then
      validateRules attrib options validations rest
    else if ruleType = CURRENCY then
      let fe := PointerElement attrib.Value
      if !fe.2 then [Errors "value"]
      else
        match fe.1.kind with
        | .kArray | .kSlice => validateRules attrib options validations rest
        | .kString =>
          if !(parsesAsISOCurrency fe.1.goString) then [Errors "value"]
          else validateRules attrib options validations rest
        | _ => [Errors "type"]
    else if ruleType = DATETIME then
      let fe := PointerElement attrib.Value
      if !fe.2 then [Errors "format"]
      else
        match fe.1.kind with
        | .kArray | .kSlice => validateRules attrib options validations rest
        | .kString =>
          if !(parsesAsRFC3339 fe.1.goString) then [Errors "format"]
          else validateRules attrib options validations rest
        | _ => [Errors "type"]
    else if ruleType = EMAIL then
      let fe := PointerElement attrib.Value
      if !fe.2 then [Errors "format"]
      else
        match fe.1.kind with
        | .kArray | .kSlice => validateRules attrib options validations rest
        | .kString =>
          if !(parsesAsEmail fe.1.goString) then [Errors "format"]
          else validateRules attrib options validations rest
        | _ => [Errors "type"]
    else if ruleType = EQUAL ∨ ruleType = MAX ∨ ruleType = MIN then
      match parsedLengthAttribute ruleValue with
      | none => [Errors "value"]
      | some length =>
        let fe := PointerElement attrib.Value
        if !fe.2 then [Errors "value"]
        else if !(IsValidLength fe.1 length ruleType) then
          match fe.1.kind with
          | .kInt | .kFloat => [Errors "value"]
          | _ => validations ++ [Errors "length"]
        else validateRules attrib options validations rest
    else if ruleType = IN then
      let fe := PointerElement attrib.Value
      if !fe.2 then [Errors "value"]
      else
        match fe.1.kind with
        | .kArray | .kSlice => validateRules attrib options validations rest
        | _ =>
          let acceptedValues := goSplit ruleValue '|'
          if !(IsIn fe.1 acceptedValues) then [Errors "value"]
          else validateRules attrib options validations rest
    else if ruleType = UUID then
      let fe := PointerElement attrib.Value
      if !fe.2 then [Errors "format"]
      else
        match fe.1.kind with
        | .kArray | .kSlice => validateRules attrib options validations rest
        | .kString =>
          if !(IsUUID fe.1.goString) && validations.length = 0 then [Errors "format"]
          else validateRules attrib options validations rest
        | _ => [Errors "type"]
    else validateRules attrib options validations rest

/-- ValidateAttribute (validators package): evaluate the attribute's
validate-tag rules in order starting from an empty accumulator. -/
def ValidateAttribute (attrib : StructAttribute) (options : ValidationOptions) :
    List String :=
  validateRules attrib options [] (GetTagValues attrib.Field VALIDATION_TAG_KEYWORD)

/-- Insertion with Go map semantics for the validations map. -/
def mapInsertErrs (m : List (String × List String)) (k : String) (v : List String) :
    List (String × List String) :=
  match m with
  | [] => [(k, v)]
  | (k', v') :: rest => if k' = k then (k, v) :: rest else (k', v') :: mapInsertErrs rest k v

/-- Lookup in the validations map. -/
def mapLookupErrs (m : List (String × List String)) (k : String) : Option (List String) :=
  match m with
  | [] => none
  | (k', v') :: rest => if k' = k then some v' else mapLookupErrs rest k

/-- The orchestration loop of Validate over the flattened attribute list:
the loop counter advances by one each iteration, plus SkipsPastLastChild
when the current attribute produced errors and its value is of slice or
array kind. -/
def validateLoop (attributes : List StructAttribute) (options : ValidationOptions)
    (pos : Nat) (validations : List (String × List String)) :
    List (String × List String) :=
  if h : pos < attributes.length then
    let attr := attributes[pos]
    let errs := ValidateAttribute attr options
    if errs.length ≠ 0 then
      let validations' := mapInsertErrs validations attr.FullName errs
      match attr.Value.kind with
      | .kSlice | .kArray =>
        validateLoop attributes options (pos + attr.SkipsPastLastChild + 1) validations'
      | _ => validateLoop attributes options (pos + 1) validations'
    else validateLoop attributes options (pos + 1) validations
  else validations
termination_by attributes.length - pos

/-- Validate (validators package): walk the model with no filter tags and
the options' ignore list, then run the orchestration loop from position
zero with an empty map. -/
def Validate (model : GoValue) (options : ValidationOptions) :
    List (String × List String) :=
  validateLoop (GetAttributes model [] options.Ignore) options 0 []

/-- Observer of the orchestration loop: the positions at which Validate
invokes ValidateAttribute (the values taken by the loop counter). -/
def evalPositions (attributes : List StructAttribute) (options : ValidationOptions)
    (pos : Nat) : List Nat :=
  if h : pos < attributes.length then
    let attr := attributes[pos]
    let errs := ValidateAttribute attr options
    if errs.length ≠ 0 then
      match attr.Value.kind with
      | .kSlice | .kArray =>
        pos :: evalPositions attributes options (pos + attr.SkipsPastLastChild + 1)
      | _ => pos :: evalPositions attributes options (pos + 1)
    else pos :: evalPositions attributes options (pos + 1)
  else []
termination_by attributes.length - pos

/-! Concrete record models used by the claim witnesses and
counterexamples.  Each model mirrors a Go struct instance from the
repository's tests or a small variation of one. -/

/-- A record with a single nil-pointer field, like File{Dir: nil}. -/
def nilDirModel : GoValue :=
  .strct [(⟨"Dir", "json:\"dir\"", false⟩, .ptr none)]

/-- A record whose only field carries a db tag but no json tag. -/
def dbOnlyModel : GoValue :=
  .strct [(⟨"A", "db:\"a\"", false⟩, .str "x")]

/-- An attribute whose string value fails both of its two length-class
rules. -/
def twoLenAttr : StructAttribute :=
  .mk (.str "abc") ⟨"Code", "json:\"code\" validate:\"min=5,max=2\"", false⟩ [] [] 0 false

/-- An attribute whose failing uuid rule precedes a malformed min rule. -/
def uuidThenBadMinAttr : StructAttribute :=
  .mk (.str "notauuid") ⟨"Id", "json:\"id\" validate:\"uuid,min=\"", false⟩ [] [] 0 false

/-- An attribute whose value is a nil pointer carrying an email rule. -/
def nilEmailAttr : StructAttribute :=
  .mk (.ptr none) ⟨"K", "json:\"k\" validate:\"email\"", false⟩ [] [] 0 false

/-- An attribute whose value is a slice of strings carrying an email rule. -/
def sliceEmailAttr : StructAttribute :=
  .mk (.slice [.str "x"]) ⟨"E", "json:\"e\" validate:\"email\"", false⟩ [] [] 0 false

/-- A record with one string field carrying a uuid rule and a non-uuid
value. -/
def oneBadUuidModel : GoValue :=
  .strct [(⟨"Id", "json:\"id\" validate:\"uuid\"", false⟩, .str "x")]

/-- The tag of the Emails field of the Person struct used by the
repository's tests: validate with uuid plus the min and max length
bounds. -/
def c5Tag : String := "json:\"emails\" validate:\"uuid,min=1,max=3\""

/-- The same tag after stripping the non-inheritable min and max
entries. -/
def c5TagStripped : String := "json:\"emails\" validate:\"uuid\""

def c5Field : SField := ⟨"Emails", c5Tag, false⟩

/-- A record with a single list-of-strings field carrying c5Tag. -/
def c5Model (xs : List String) : GoValue :=
  .strct [(c5Field, .slice (xs.map GoValue.str))]

/-- A record whose list field's validate tag has a min entry between two
other entries. -/
def c5MergeModel : GoValue :=
  .strct [(⟨"Xs", "json:\"xs\" validate:\"uuid,min=1,email\"", false⟩, .slice [.str "a"])]

/-- The tag of a list field whose container rule max=3 fails on a
four-element list while the propagated uuid rule fails on each element. -/
def c2Tag : String := "json:\"emails\" validate:\"uuid,max=3\""

def c2TagStripped : String := "json:\"emails\" validate:\"uuid\""

def c2Field : SField := ⟨"Emails", c2Tag, false⟩

def c2List : GoValue := .slice [.str "a", .str "b", .str "c", .str "d"]

/-- A record with a four-element list of non-uuid strings under c2Tag. -/
def c2Model : GoValue := .strct [(c2Field, c2List)]

/-- The container attribute the walker emits for c2Model's field. -/
def c2Sa : StructAttribute := .mk c2List c2Field [] [] 0 false

/-- The synthesized element attribute at index i with value s and full
name nm. -/
def c2Child (s nm : String) (i : Int) : StructAttribute :=
  .mk (.str s) ⟨nm, c2TagStripped, false⟩ [c2Sa] [] i true


/-- A synthesized primitive child used to exercise the orchestrator's
skip window. -/
def c2SkipChild : StructAttribute :=
  .mk (.str "x") ⟨"xs[0]", "json:\"xs\"", false⟩ [] [] 0 true

/-- A list attribute whose malformed max= rule fails at the container
level, with one expanded child. -/
def c2SkipAttr : StructAttribute :=
  .mk (.slice [.str "x"]) ⟨"Xs", "json:\"xs\" validate:\"max=\"", false⟩ [] [c2SkipChild] 0 false

/-- The loop counter increment of Validate past position pos (minus the
unconditional one): SkipsPastLastChild when the attribute fails and is of
slice or array kind, zero otherwise. -/
def stepOf (attrs : List StructAttribute) (opts : ValidationOptions) (pos : Nat)
    (h : pos < attrs.length) : Nat :=
  if (ValidateAttribute attrs[pos] opts).length ≠ 0 then
    match attrs[pos].Value.kind with
    | .kSlice | .kArray => attrs[pos].SkipsPastLastChild
    | _ => 0
  else 0

/-- A placeholder attribute for total list indexing. -/
def dfltAttr : StructAttribute := .mk (.str "") ⟨"", "", false⟩ [] [] 0 false

/-- The name/list-position/primitive triple of an attribute: everything
FullName reads from one link of the parent chain. -/
def sigOf (p : StructAttribute) : String × Int × Bool :=
  (GetJSONTagValue p.Field, p.ListPosition, p.isPrimitive)

/-- The attribute's own chain (ancestors root first, itself last),
reversed and projected to signatures: the shape FullName recurses on. -/
def chainRev (a : StructAttribute) : List (String × Int × Bool) :=
  (a.Parents ++ [a]).reverse.map sigOf

/-- The parent chains stored in an attribute are consistent: the i-th
parent's own chain is the first i parents.  The walker only ever extends
the chain it passes down, so every attribute it emits satisfies this. -/
def ChainConsistent (a : StructAttribute) : Prop :=
  ∀ (i : Nat) (h : i < a.Parents.length), (a.Parents[i]).Parents = a.Parents.take i

/-- FullName restated as a structural recursion on the reversed signature
chain (self first, root last). -/
def renderRev : List (String × Int × Bool) → String
  | [] => ""
  | [s] => s.1
  | s :: rest =>
    let scope0 := renderRev rest
    let scope := if 0 ≤ s.2.1 then scope0 ++ "[" ++ intSprint s.2.1 ++ "]" else scope0
    if s.2.2 then scope
    else trimTrailingDot (trimLeadingDot (scope ++ "." ++ s.1))

/-- A json name usable for unambiguous addressing: nonempty and free of
the bracket and dot metacharacters of the full-name syntax. -/
def cleanNameB (nm : String) : Bool :=
  !nm.data.isEmpty && nm.data.all (fun c => !(c = '[' || c = ']' || c = '.'))

/-- A reversed signature chain as the walker produces it, with clean
names: every link has a clean name, only the final attribute (the chain
head) may be a synthesized primitive element, and a primitive element
carries its nonnegative list index. -/
def cleanRevB : List (String × Int × Bool) → Bool
  | [] => false
  | [s] => cleanNameB s.1
  | s :: rest =>
    cleanNameB s.1 && (!s.2.2 || decide (0 ≤ s.2.1)) &&
      rest.all (fun t => !t.2.2) && cleanRevB rest

/-- The address a rendered full name exposes: for each link after the
root, the rendered name (empty for a primitive element, whose own name is
not rendered), the rendered list index, and the primitive marker; the
root contributes only its name. -/
def visible : List (String × Int × Bool) → List (String × Option Nat × Bool)
  | [] => []
  | [s] => [(s.1, none, false)]
  | s :: rest =>
    (if s.2.2 then "" else s.1, if 0 ≤ s.2.1 then some s.2.1.toNat else none, s.2.2)
      :: visible rest

def c6Field1 : SField := ⟨"Articles", "json:\"articles\"", false⟩

def c6Field2 : SField := ⟨"Weird", "json:\"articles[0]\"", false⟩

def c6TitleF : SField := ⟨"Title", "json:\"title\"", false⟩

/-- A record with per-level distinct external names in which one name
contains bracket characters: a list of one-field structs named articles
next to a struct field named articles[0]. -/
def c6Model : GoValue :=
  .strct [(c6Field1, .slice [.strct [(c6TitleF, .str "x")]]),
          (c6Field2, .strct [(c6TitleF, .str "y")])]

/-- The container attribute of the articles field. -/
def c6ArticlesSa : StructAttribute :=
  .mk (.slice [.strct [(c6TitleF, .str "x")]]) c6Field1 [] [] 0 false

/-- The title attribute of the first articles element. -/
def c6TitleA : StructAttribute := .mk (.str "x") c6TitleF [c6ArticlesSa] [] 0 false

/-- The attribute of the bracket-named struct field. -/
def c6WeirdSa : StructAttribute :=
  .mk (.strct [(c6TitleF, .str "y")]) c6Field2 [] [] 0 false

/-- The title attribute nested under the bracket-named field. -/
def c6TitleW : StructAttribute := .mk (.str "y") c6TitleF [c6WeirdSa] [] (-1) false

/-- Whether a reversed signature chain renders with a closing bracket as
its final character: a chain of length at least two headed by a primitive
element. -/
def endsBracketB : List (String × Int × Bool) → Bool
  | s :: _ :: _ => s.2.2
  | _ => false

end GoStructs

namespace GoStructs

/-! General lemmas about the rule loop and the orchestration loop. -/

theorem PointerElement_snd_false (v : GoValue) (h : (PointerElement v).2 = false) :
    (PointerElement v).1 = .ptr none := by
  match v with
  | .ptr none => rfl
  | .ptr (some w) => exact PointerElement_snd_false w h
  | .str s => simp [PointerElement] at h
  | .int n => simp [PointerElement] at h
  | .float q => simp [PointerElement] at h
  | .bool b => simp [PointerElement] at h
  | .strct fs => simp [PointerElement] at h
  | .slice es => simp [PointerElement] at h
  | .uuid16 bs => simp [PointerElement] at h

theorem validateRules_length (attrib : StructAttribute) (opts : ValidationOptions) :
    ∀ (rules : List String) (acc : List String),
      (validateRules attrib opts acc rules).length ≤ acc.length + 1 := by
  intro rules
  induction rules with
  | nil => intro acc; simp [validateRules]
  | cons r rest ih =>
    intro acc
    rw [validateRules]
    repeat' split
    all_goals try simp_all
    all_goals repeat' split
    all_goals try simp_all
    all_goals try omega

theorem ValidateAttribute_length_le_one (attrib : StructAttribute)
    (opts : ValidationOptions) : (ValidateAttribute attrib opts).length ≤ 1 := by
  have h := validateRules_length attrib opts
    (GetTagValues attrib.Field VALIDATION_TAG_KEYWORD) []
  simpa [ValidateAttribute] using h

theorem mapLookupErrs_insert (m : List (String × List String)) (k : String)
    (v : List String) (k' : String) :
    mapLookupErrs (mapInsertErrs m k v) k' =
      if k' = k then some v else mapLookupErrs m k' := by
  induction m with
  | nil =>
    simp only [mapInsertErrs, mapLookupErrs]
    by_cases h : k = k'
    · subst h; simp
    · rw [if_neg h, if_neg (fun hh => h hh.symm)]
  | cons p rest ih =>
    obtain ⟨k0, v0⟩ := p
    by_cases h0 : k0 = k
    · subst h0
      simp only [mapInsertErrs, if_pos rfl, mapLookupErrs]
      by_cases h' : k0 = k'
      · rw [if_pos h', if_pos h'.symm]
      · rw [if_neg h', if_neg (fun hh => h' hh.symm), if_neg h']
    · simp only [mapInsertErrs, if_neg h0, mapLookupErrs]
      by_cases h' : k0 = k'
      · rw [if_pos h', if_neg (fun hh => h0 (h'.trans hh)), if_pos h']
      · rw [if_neg h', ih, if_neg h']

theorem validateLoop_lookup (attrs : List StructAttribute) (opts : ValidationOptions)
    (P : List String → Prop)
    (hattr : ∀ i : Fin attrs.length,
      (ValidateAttribute attrs[i] opts).length ≠ 0 → P (ValidateAttribute attrs[i] opts)) :
    ∀ (fuel pos : Nat) (acc : List (String × List String)),
      attrs.length - pos ≤ fuel →
      (∀ k e, mapLookupErrs acc k = some e → P e) →
      ∀ k e, mapLookupErrs (validateLoop attrs opts pos acc) k = some e → P e := by
  intro fuel
  induction fuel with
  | zero =>
    intro pos acc hle hinv k e h
    rw [validateLoop, dif_neg (by omega)] at h
    exact hinv k e h
  | succ n ih =>
    intro pos acc hle hinv k e h
    rw [validateLoop] at h
    split at h
    case isFalse => exact hinv k e h
    case isTrue hlt =>
      have hinsert : ∀ hne : (ValidateAttribute attrs[pos] opts).length ≠ 0,
          ∀ k' e', mapLookupErrs
            (mapInsertErrs acc (attrs[pos].FullName) (ValidateAttribute attrs[pos] opts)) k'
              = some e' → P e' := by
        intro hne k' e' h'
        rw [mapLookupErrs_insert] at h'
        split at h'
        · cases h'
          exact hattr ⟨pos, hlt⟩ hne
        · exact hinv k' e' h'
      simp only at h
      split at h
      case isTrue hne =>
        split at h
        all_goals exact ih _ _ (by omega) (hinsert hne) k e h
      case isFalse => exact ih _ _ (by omega) hinv k e h

theorem Validate_lookup (model : GoValue) (opts : ValidationOptions)
    (P : List String → Prop)
    (hattr : ∀ a opts', (ValidateAttribute a opts').length ≠ 0 → P (ValidateAttribute a opts'))
    (k : String) (e : List String)
    (h : mapLookupErrs (Validate model opts) k = some e) : P e := by
  refine validateLoop_lookup (GetAttributes model [] opts.Ignore) opts P
    (fun i hne => hattr _ opts hne)
    (GetAttributes model [] opts.Ignore).length 0 [] (by omega) ?_ k e h
  intro k' e' h'
  simp [mapLookupErrs] at h'

/-- Claim C10: ValidateAttribute always returns at most one error code,
and consequently every value of the mapping returned by Validate is a
list of exactly one code; no attribute ever accumulates two or more codes
in a single validation call. -/
theorem C10_at_most_one_code :
    (∀ (attrib : StructAttribute) (opts : ValidationOptions),
      (ValidateAttribute attrib opts).length ≤ 1) ∧
    (∀ (model : GoValue) (opts : ValidationOptions) (k : String) (e : List String),
      mapLookupErrs (Validate model opts) k = some e → e.length = 1) := by
  constructor
  · exact ValidateAttribute_length_le_one
  · intro model opts k e h
    refine Validate_lookup model opts (fun e => e.length = 1) ?_ k e h
    intro a opts' hne
    have := ValidateAttribute_length_le_one a opts'
    omega

/-- Claim C4 (amended): a failing length-class rule does not accumulate
and continue; it returns at once, appending exactly one INVALID_LENGTH to
the accumulated list (and a failing format-class rule returns a singleton
at once, discarding the accumulator), so no attribute can collect more
than one code. -/
theorem C4_length_failure_returns_immediately
    (attrib : StructAttribute) (opts : ValidationOptions)
    (acc : List String) (r : String) (rest : List String) (len : Rat)
    (hrt : ruleTypeOf r = EQUAL ∨ ruleTypeOf r = MAX ∨ ruleTypeOf r = MIN)
    (hskip : Contains opts.SkipRules (ruleTypeOf r) = false)
    (hparse : parsedLengthAttribute (ruleValueOf r) = some len)
    (hok : (PointerElement attrib.Value).2 = true)
    (hfail : IsValidLength (PointerElement attrib.Value).1 len (ruleTypeOf r) = false)
    (hkind : (PointerElement attrib.Value).1.kind ≠ GoKind.kInt ∧
      (PointerElement attrib.Value).1.kind ≠ GoKind.kFloat) :
    validateRules attrib opts acc (r :: rest) = acc ++ ["INVALID_LENGTH"] := by
  obtain ⟨hk1, hk2⟩ := hkind
  rcases hrt with h | h | h <;>
  · rw [validateRules]
    repeat' split
    all_goals simp_all [EQUAL, MAX, MIN, CURRENCY, DATETIME, EMAIL, IN, UUID, Errors]

/-- Witness for C4: the attribute with value "abc" and rules min=5,max=2
stops at the failing min rule with the single code INVALID_LENGTH; the
max rule is never evaluated. -/
theorem C4_witness :
    validateRules twoLenAttr ⟨[], []⟩ [] ["min=5", "max=2"] = ["INVALID_LENGTH"] :=
  (C4_length_failure_returns_immediately twoLenAttr ⟨[], []⟩ [] "min=5" ["max=2"] 5
    (by decide) (by decide)
    (by simp [parsedLengthAttribute, ruleValueOf, splitFirstL, parseGoFloat, parseMantissaL,
      parseDigitsL, isDigitChar])
    (by decide)
    (by simp [IsValidLength, PointerElement, twoLenAttr, StructAttribute.Value, ruleTypeOf,
      splitFirstL, MIN, MAX, EQUAL, show ("abc".utf8ByteSize = 3) from rfl] <;> norm_num)
    (by constructor <;> decide)).trans (by decide)

/-- Counterexample to C4 as stated: an attribute carrying two failing
length-class rules (min=5 and max=2 on the 3-byte string "abc") returns a
single INVALID_LENGTH, not an accumulation of both codes - the append
path returns immediately. -/
theorem C4_counterexample :
    ValidateAttribute twoLenAttr ⟨[], []⟩ = ["INVALID_LENGTH"] ∧
    (ValidateAttribute twoLenAttr ⟨[], []⟩).length = 1 := by
  have h : ValidateAttribute twoLenAttr ⟨[], []⟩ = ["INVALID_LENGTH"] := by
    simp [ValidateAttribute, validateRules, GetTagValues, tagLookup, tagScan, tagNameChar,
      goSplit, splitOnCharL, splitFirstL, ruleTypeOf, ruleValueOf, Contains,
      twoLenAttr, StructAttribute.Field, StructAttribute.Value, PointerElement,
      parsedLengthAttribute, parseGoFloat, parseMantissaL, parseDigitsL, parseExpL, isDigitChar,
      IsValidLength, GoValue.kind, Errors, EQUAL, MAX, MIN, CURRENCY, DATETIME, EMAIL, IN, UUID,
      VALIDATION_TAG_KEYWORD, show ("abc".utf8ByteSize = 3) from rfl] <;> norm_num
  exact ⟨h, by rw [h]; rfl⟩

/-- Claim C7 (amended): the dispatched format-class rules (email, uuid,
datetime, currency) are no-ops on slice- and array-kind values, and a
rule whose keyword is not dispatched at all (url, and any regex rule) is
a no-op on every value; but a format error can also be produced on a
value that is not string-kind, namely a nil pointer. -/
theorem C7_format_rules_container_noop :
    (∀ (attrib : StructAttribute) (opts : ValidationOptions) (acc : List String)
      (r : String) (rest : List String),
      (ruleTypeOf r = EMAIL ∨ ruleTypeOf r = UUID ∨ ruleTypeOf r = DATETIME ∨
        ruleTypeOf r = CURRENCY) →
      ((PointerElement attrib.Value).1.kind = GoKind.kSlice ∨
        (PointerElement attrib.Value).1.kind = GoKind.kArray) →
      validateRules attrib opts acc (r :: rest) = validateRules attrib opts acc rest) ∧
    (∀ (attrib : StructAttribute) (opts : ValidationOptions) (acc : List String)
      (r : String) (rest : List String),
      ruleTypeOf r ∉ ([CURRENCY, DATETIME, EMAIL, EQUAL, MAX, MIN, IN, UUID] : List String) →
      validateRules attrib opts acc (r :: rest) = validateRules attrib opts acc rest) := by
  constructor
  · intro attrib opts acc r rest hrt hkind
    have hok : (PointerElement attrib.Value).2 = true := by
      by_contra hf
      have h1 := PointerElement_snd_false attrib.Value (by simpa using hf)
      rcases hkind with hk | hk <;> rw [h1] at hk <;> simp [GoValue.kind] at hk
    rcases hrt with h | h | h | h <;> rcases hkind with hk | hk <;>
    · rw [validateRules]
      repeat' split
      all_goals simp_all [EQUAL, MAX, MIN, CURRENCY, DATETIME, EMAIL, IN, UUID]
  · intro attrib opts acc r rest hrt
    simp only [List.mem_cons, List.mem_singleton, not_or] at hrt
    obtain ⟨h1, h2, h3, h4, h5, h6, h7, h8, -⟩ := hrt
    rw [validateRules]
    repeat' split
    all_goals simp_all [EQUAL, MAX, MIN, CURRENCY, DATETIME, EMAIL, IN, UUID]

/-- Witness for C7: the email rule on a slice-of-strings attribute is a
no-op (children are validated individually), and the url rule is a no-op
everywhere. -/
theorem C7_witness :
    ValidateAttribute sliceEmailAttr ⟨[], []⟩ = [] ∧
    validateRules sliceEmailAttr ⟨[], []⟩ [] ["url"] = [] :=
  ⟨by
    have h := C7_format_rules_container_noop.1 sliceEmailAttr ⟨[], []⟩ [] "email" []
      (by decide) (by decide)
    rw [ValidateAttribute, show GetTagValues sliceEmailAttr.Field VALIDATION_TAG_KEYWORD
      = ["email"] by decide, h, validateRules],
   by
    have h := C7_format_rules_container_noop.2 sliceEmailAttr ⟨[], []⟩ [] "url" []
      (by decide)
    rw [h, validateRules]⟩

/-- Counterexample to C7 as stated: the email rule produces INVALID_FORMAT
on a nil-pointer value, whose kind is pointer, not a primitive string -
so format-class rules do not only ever produce errors on string-kind
values. -/
theorem C7_counterexample :
    ValidateAttribute nilEmailAttr ⟨[], []⟩ = ["INVALID_FORMAT"] ∧
    nilEmailAttr.Value.kind ≠ GoKind.kString := by
  constructor <;> decide

/-- Claim C1 (amended): a non-anonymous, filter-included, non-ignored
field whose value is a pointer chain ending in nil is resolved by the
attempted unwrap to the nil pointer itself; the walker still emits exactly
one attribute for the field (value the nil pointer, no children) and
never descends into it - the rest of the walk continues from the
accumulator extended by just that attribute. -/
theorem C1_nil_pointer_field (rsf : SField) (v0 : GoValue)
    (rest : List (SField × GoValue)) (parents : List StructAttribute)
    (filterTags ignoredFields : List String) (currentIndex : Int)
    (attributes : List StructAttribute)
    (hanon : rsf.Anonymous = false)
    (hincl : shouldBeIncluded filterTags rsf = true)
    (hign : Contains ignoredFields rsf.Name = false)
    (hnil : (PointerElement v0).2 = false) :
    walkFields ((rsf, v0) :: rest) parents filterTags ignoredFields currentIndex attributes =
      walkFields rest parents filterTags ignoredFields currentIndex
        (attributes ++ [.mk (.ptr none) rsf parents [] currentIndex false]) := by
  have hv := PointerElement_snd_false v0 hnil
  rw [walkFields]
  simp only [hanon, hincl, hign, hv, Bool.not_true, Bool.false_or, Bool.or_false,
    Bool.false_eq_true, if_false, ite_false]
  split
  all_goals simp_all

/-- Witness for C1 (amended): the File record with a nil Dir pointer
produces exactly the dir attribute, with a nil-pointer value and no
children. -/
theorem C1_witness :
    (PointerElement (GoValue.ptr none)).2 = false ∧
    walkFields [(⟨"Dir", "json:\"dir\"", false⟩, .ptr none)] [] [] [] 0 [] =
      [.mk (.ptr none) ⟨"Dir", "json:\"dir\"", false⟩ [] [] 0 false] :=
  ⟨by decide,
    (C1_nil_pointer_field ⟨"Dir", "json:\"dir\"", false⟩ (.ptr none) [] [] [] [] 0 []
      (by decide) (by decide) (by decide) (by decide)).trans (by rw [walkFields]; rfl)⟩

/-- Counterexample to C1 as stated: the record File{Dir: nil} does emit an
attribute named dir for its nil-pointer field (as the repository's own
tests expect), so a nil pointer chain does not make the walker skip the
field with no attribute emitted. -/
theorem C1_counterexample :
    (GetAttributes nilDirModel [] []).map (fun a => a.FullName) = ["dir"] ∧
    (GetAttributes nilDirModel [] []).length = 1 := by
  constructor <;>
  · simp [GetAttributes, getAttributes, walkFields, walkElems, StructAttribute.FullName,
      PointerElement, shouldBeIncluded, Contains, GetJSONTagValue, GetTagValue, tagGet,
      tagLookup, tagScan, goSplit, splitOnCharL, tagNameChar, nilDirModel]

theorem foldl_overwrite (f : String → Bool) :
    ∀ (l : List String) (init : Bool) (h : l ≠ []),
      l.foldl (fun _ t => f t) init = f (l.getLast h) := by
  intro l
  induction l with
  | nil => intro init h; exact absurd rfl h
  | cons a rest ih =>
    intro init h
    rw [List.foldl_cons]
    cases rest with
    | nil => simp [List.getLast]
    | cons b bs =>
      rw [ih (f a) (by simp)]
      conv_rhs => rw [List.getLast_cons (l := b :: bs) (by simp)]

/-- Claim C3 (amended): with a non-empty filterTags list, a field is
included exactly when it carries the last listed tag key - each loop
iteration overwrites the inclusion flag with the current tag's Lookup
result, so earlier tags do not matter and there is no logical OR; an
empty filterTags list includes every field. -/
theorem C3_filter_last_tag_wins (filterTags : List String) (rsf : SField) :
    (filterTags = [] → shouldBeIncluded filterTags rsf = true) ∧
    (∀ h : filterTags ≠ [],
      shouldBeIncluded filterTags rsf =
        (tagLookup rsf.Tag (filterTags.getLast h)).isSome) := by
  constructor
  · intro h
    subst h
    rfl
  · intro h
    rw [shouldBeIncluded, foldl_overwrite (fun t => (tagLookup rsf.Tag t).isSome)
      filterTags filterTags.isEmpty h]

/-- Witness for C3 (amended): a field carrying only a db tag is excluded
under filterTags db,json because only the last tag (json) decides, even
though the field carries the first listed tag. -/
theorem C3_witness :
    shouldBeIncluded ["db", "json"] ⟨"A", "db:\"a\"", false⟩ =
      (tagLookup "db:\"a\"" "json").isSome ∧
    shouldBeIncluded ["db", "json"] ⟨"A", "db:\"a\"", false⟩ = false :=
  ⟨(C3_filter_last_tag_wins ["db", "json"] ⟨"A", "db:\"a\"", false⟩).2 (by decide),
   by decide⟩

/-- Counterexample to C3 as stated: under filterTags db,json a field
carrying the db tag (one of the listed keys) is not included - the walk
of a record with such a field is empty, refuting the claimed logical OR
across the supplied tags. -/
theorem C3_counterexample :
    GetAttributes dbOnlyModel ["db", "json"] [] = [] ∧
    (tagLookup "db:\"a\"" "db").isSome = true ∧
    shouldBeIncluded ["db", "json"] ⟨"A", "db:\"a\"", false⟩ = false := by
  refine ⟨?_, by decide, by decide⟩
  simp [GetAttributes, getAttributes, walkFields, shouldBeIncluded, Contains,
    tagLookup, tagScan, tagNameChar, dbOnlyModel, PointerElement]

theorem walkFields_nil (p : List StructAttribute) (ft ig : List String) (ci : Int)
    (acc : List StructAttribute) : walkFields [] p ft ig ci acc = acc := by
  rw [walkFields]

theorem walkElems_nil (l : Nat) (b : Bool) (sa : StructAttribute)
    (np : List StructAttribute) (ft ig : List String) (acc : List StructAttribute) :
    walkElems [] l b sa np ft ig acc = acc := by
  rw [walkElems]

theorem getAttributes_strct (fs : List (SField × GoValue)) (p : List StructAttribute)
    (ft ig : List String) (ci : Int) :
    getAttributes (.strct fs) p ft ig ci = walkFields fs p ft ig ci [] := by
  rw [getAttributes]

/-- Unfolding of the field loop for a single slice-valued, non-anonymous,
unfiltered field: the walk is the container attribute followed by the
element loop. -/
theorem walkFields_single_slice (fld : SField) (els : List GoValue)
    (hanon : fld.Anonymous = false) :
    walkFields [(fld, .slice els)] [] [] [] 0 [] =
      walkElems els 0 (isListOfPrimitives (.slice els))
        (.mk (.slice els) fld [] [] 0 false)
        [.mk (.slice els) fld [] [] 0 false] [] []
        [.mk (.slice els) fld [] [] 0 false] := by
  rw [walkFields]
  simp only [hanon, PointerElement, Bool.false_eq_true, if_false, ite_false,
    show shouldBeIncluded [] fld = true from rfl, show Contains [] fld.Name = false from rfl,
    Bool.not_true, Bool.or_false, List.nil_append]
  rw [walkFields_nil]

theorem updLast_map_pres {α : Type} (g : StructAttribute → α)
    (f : StructAttribute → StructAttribute) (hg : ∀ a, g (f a) = g a) :
    ∀ (l : List StructAttribute), (updLast l f).map g = l.map g := by
  intro l
  induction l with
  | nil => rfl
  | cons a rest ih =>
    cases rest with
    | nil => simp [updLast, hg]
    | cons b bs =>
      rw [show updLast (a :: b :: bs) f = a :: updLast (b :: bs) f from rfl]
      simp only [List.map_cons]
      rw [ih]
      simp

/-- The primitive branch of the element loop only ever appends synthesized
children whose Field.Tag is the parent tag with the non-inheritable
attributes stripped; the updLast mutation touches only Children, so the
(tag, isPrimitive) projection of the accumulator is untouched. -/
theorem walkElems_prim_tags (sa : StructAttribute) (np : List StructAttribute)
    (ft ig : List String) :
    ∀ (els : List GoValue) (l : Nat) (acc : List StructAttribute),
      (walkElems els l true sa np ft ig acc).map (fun a => (a.Field.Tag, a.isPrimitive)) =
        acc.map (fun a => (a.Field.Tag, a.isPrimitive)) ++
          els.map (fun _ =>
            (RemoveValuesFromTag VALIDATION_TAG_KEYWORD NON_INHERITABLE_TAG_ATTRIBUTES sa.Field,
              true)) := by
  intro els
  induction els with
  | nil => intro l acc; rw [walkElems]; simp
  | cons el rest ih =>
    intro l acc
    rw [walkElems]
    simp only [if_pos rfl, ite_true]
    rw [ih]
    rw [List.map_append,
      updLast_map_pres (fun a => (a.Field.Tag, a.isPrimitive)) _
        (fun a => by cases a <;> rfl)]
    simp [StructAttribute.Field, StructAttribute.isPrimitive]

/-- Claim C5 (amended): for a list-of-primitives field carrying the tag
validate uuid,min=1,max=3, every synthesized element attribute receives
the parent's tag with the min and max entries stripped while the list
attribute itself retains the original unmodified tag; but entries other
than min and max do not always pass through unchanged - when a stripped
entry lies between two other entries, both surrounding commas are
consumed and the neighbouring entries are concatenated. -/
theorem C5_min_max_stripped_on_children (xs : List String) :
    (GetAttributes (c5Model xs) [] []).map (fun a => (a.Field.Tag, a.isPrimitive)) =
      (c5Tag, false) :: xs.map (fun _ => (c5TagStripped, true)) := by
  have hstrip : RemoveValuesFromTag VALIDATION_TAG_KEYWORD NON_INHERITABLE_TAG_ATTRIBUTES
      ⟨"Emails", c5Tag, false⟩ = c5TagStripped := by
    simp [RemoveValuesFromTag, VALIDATION_TAG_KEYWORD, NON_INHERITABLE_TAG_ATTRIBUTES,
      c5Tag, c5TagStripped, GetTag, tagLookup, tagScan, tagNameChar, goSplit,
      splitOnCharL, splitFirstL, mapInsertStr, assocLookup, replaceAllL, patMatchAt,
      patCandidates, patSuffixes, firstMatch, matchLit]
  rw [show c5Model xs = .strct [(⟨"Emails", c5Tag, false⟩, .slice (xs.map GoValue.str))]
    from rfl, show c5Tag = c5Tag from rfl]
  rw [GetAttributes, getAttributes_strct, walkFields_single_slice _ _ rfl]
  cases xs with
  | nil =>
    simp only [List.map_nil]
    rw [walkElems_nil]
    simp [c5Tag, StructAttribute.Field, StructAttribute.isPrimitive]
  | cons x rest =>
    rw [show isListOfPrimitives (.slice ((x :: rest).map GoValue.str)) = true from rfl]
    rw [walkElems_prim_tags]
    simp only [List.map_cons, List.map_nil, List.map_map, List.cons_append, List.nil_append,
      StructAttribute.Field, StructAttribute.isPrimitive]
    rw [hstrip]
    simp [Function.comp_def, List.map_const]

/-- Counterexample to C5 as stated: with the tag validate
uuid,min=1,email (a min entry between two other entries), the synthesized
element attribute's validate entries are uuidemail - the comma on both
sides of min=1 is consumed and the neighbouring entries uuid and email
are concatenated, so entries other than min/max do not pass through
unchanged. -/
theorem c5merge_walk :
    GetAttributes c5MergeModel [] [] =
      [.mk (.slice [.str "a"]) ⟨"Xs", "json:\"xs\" validate:\"uuid,min=1,email\"", false⟩
        [] [.mk (.str "a") ⟨"xs[0]", "json:\"xs\" validate:\"uuidemail\"", false⟩
              [.mk (.slice [.str "a"])
                ⟨"Xs", "json:\"xs\" validate:\"uuid,min=1,email\"", false⟩ [] [] 0 false]
              [] 0 true]
        0 false,
       .mk (.str "a") ⟨"xs[0]", "json:\"xs\" validate:\"uuidemail\"", false⟩
        [.mk (.slice [.str "a"]) ⟨"Xs", "json:\"xs\" validate:\"uuid,min=1,email\"", false⟩
          [] [] 0 false]
        [] 0 true] := by
  have hstrip2 : RemoveValuesFromTag VALIDATION_TAG_KEYWORD NON_INHERITABLE_TAG_ATTRIBUTES
      ⟨"Xs", "json:\"xs\" validate:\"uuid,min=1,email\"", false⟩ =
      "json:\"xs\" validate:\"uuidemail\"" := by
    simp [RemoveValuesFromTag, VALIDATION_TAG_KEYWORD, NON_INHERITABLE_TAG_ATTRIBUTES,
      GetTag, tagLookup, tagScan, tagNameChar, goSplit,
      splitOnCharL, splitFirstL, mapInsertStr, assocLookup, replaceAllL, patMatchAt,
      patCandidates, patSuffixes, firstMatch, matchLit]
  rw [show c5MergeModel = .strct [(⟨"Xs", "json:\"xs\" validate:\"uuid,min=1,email\"",
    false⟩, .slice [.str "a"])] from rfl]
  rw [GetAttributes, getAttributes_strct, walkFields_single_slice _ _ rfl]
  rw [show isListOfPrimitives (.slice [.str "a"]) = true from rfl]
  rw [walkElems]
  simp only [if_pos rfl, ite_true, hstrip2]
  rw [walkElems_nil]
  simp only [updLast, StructAttribute.withChildren, StructAttribute.Children,
    StructAttribute.Field, List.nil_append]
  have hfn : (StructAttribute.mk (.str "a") default
      [.mk (.slice [.str "a"]) ⟨"Xs", "json:\"xs\" validate:\"uuid,min=1,email\"", false⟩
        [] [] 0 false] [] (Int.ofNat 0) true).FullName = "xs[0]" := by
    rw [StructAttribute.FullName]
    simp [StructAttribute.FullName, GetJSONTagValue, GetTagValue, tagGet, tagLookup,
      tagScan, tagNameChar, goSplit, splitOnCharL, natDigitsL, intSprint,
      trimLeadingDot, trimTrailingDot, List.getLast]
  rw [hfn]
  simp [hstrip2]

/-- Counterexample to C5 as stated (continued): the element attribute's
validate entries. -/
theorem C5_counterexample :
    (GetAttributes c5MergeModel [] []).map
        (fun a => GetTagValues a.Field VALIDATION_TAG_KEYWORD) =
      [["uuid", "min=1", "email"], ["uuidemail"]] := by
  rw [c5merge_walk]
  decide

theorem evalPositions_self_mem (attrs : List StructAttribute) (opts : ValidationOptions)
    (pos : Nat) (h : pos < attrs.length) : pos ∈ evalPositions attrs opts pos := by
  rw [evalPositions, dif_pos h]
  simp only [ne_eq]
  split
  · split <;> exact List.mem_cons_self _ _
  · exact List.mem_cons_self _ _

/-- Claim C8 (amended): a min/max/eq rule whose value does not parse
yields exactly INVALID_VALUE when the rule is reached (no earlier rule
already returned), never a crash; and a failing non-slice attribute never
aborts the pass - the orchestrator evaluates the next position. -/
theorem C8_malformed_rule_value :
    (∀ (attrib : StructAttribute) (opts : ValidationOptions) (acc : List String)
      (r : String) (rest : List String),
      (ruleTypeOf r = EQUAL ∨ ruleTypeOf r = MAX ∨ ruleTypeOf r = MIN) →
      Contains opts.SkipRules (ruleTypeOf r) = false →
      parsedLengthAttribute (ruleValueOf r) = none →
      validateRules attrib opts acc (r :: rest) = ["INVALID_VALUE"]) ∧
    (∀ (attrs : List StructAttribute) (opts : ValidationOptions) (pos : Nat)
      (h1 : pos < attrs.length),
      (ValidateAttribute attrs[pos] opts).length ≠ 0 →
      attrs[pos].Value.kind ≠ GoKind.kSlice →
      attrs[pos].Value.kind ≠ GoKind.kArray →
      pos + 1 < attrs.length →
      (pos + 1) ∈ evalPositions attrs opts pos) := by
  constructor
  · intro attrib opts acc r rest hrt hskip hparse
    rcases hrt with h | h | h <;>
    · rw [validateRules]
      repeat' split
      all_goals simp_all [EQUAL, MAX, MIN, CURRENCY, DATETIME, EMAIL, IN, UUID, Errors]
  · intro attrs opts pos h1 hne hk1 hk2 h2
    rw [evalPositions, dif_pos h1]
    simp only
    rw [if_pos hne]
    have hmem : pos + 1 ∈ evalPositions attrs opts (pos + 1) :=
      evalPositions_self_mem attrs opts (pos + 1) h2
    rcases hk : attrs[pos].Value.kind <;> simp_all [hmem]

/-- Witness for C8: the malformed rule min= on a string attribute yields
exactly INVALID_VALUE, and after a failing non-slice attribute at
position 0 of a two-attribute sequence, position 1 is still evaluated. -/
theorem C8_witness :
    validateRules uuidThenBadMinAttr ⟨[], []⟩ [] ["min="] = ["INVALID_VALUE"] ∧
    1 ∈ evalPositions [uuidThenBadMinAttr, nilEmailAttr] ⟨[], []⟩ 0 :=
  ⟨C8_malformed_rule_value.1 uuidThenBadMinAttr ⟨[], []⟩ [] "min=" []
      (by decide) (by decide) (by decide),
   C8_malformed_rule_value.2 [uuidThenBadMinAttr, nilEmailAttr] ⟨[], []⟩ 0
      (by decide) (by decide) (by decide) (by decide) (by decide)⟩

/-- Counterexample to C8 as stated: an attribute carrying the malformed
rule min= does not return INVALID_VALUE when an earlier rule (a failing
uuid) already returned INVALID_FORMAT - the malformed-rule code is only
produced when the rule is reached. -/
theorem C8_counterexample :
    ValidateAttribute uuidThenBadMinAttr ⟨[], []⟩ = ["INVALID_FORMAT"] ∧
    parsedLengthAttribute (ruleValueOf "min=") = none := by
  constructor <;> decide

theorem evalPositions_unfold (attrs : List StructAttribute) (opts : ValidationOptions)
    (pos : Nat) (h : pos < attrs.length) :
    evalPositions attrs opts pos =
      pos :: evalPositions attrs opts (pos + stepOf attrs opts pos h + 1) := by
  rw [evalPositions, dif_pos h, stepOf]
  simp only
  by_cases hne : (ValidateAttribute attrs[pos] opts).length ≠ 0
  · simp only [if_pos hne]
    rcases hk : (attrs[pos]).Value.kind <;> simp [hk]
  · have heq : ValidateAttribute attrs[pos] opts = [] := by simpa using hne
    simp [heq]

theorem validateLoop_unfold (attrs : List StructAttribute) (opts : ValidationOptions)
    (pos : Nat) (acc : List (String × List String)) (h : pos < attrs.length) :
    validateLoop attrs opts pos acc =
      validateLoop attrs opts (pos + stepOf attrs opts pos h + 1)
        (if (ValidateAttribute attrs[pos] opts).length ≠ 0 then
          mapInsertErrs acc (attrs[pos].FullName) (ValidateAttribute attrs[pos] opts)
        else acc) := by
  rw [validateLoop, dif_pos h, stepOf]
  simp only
  by_cases hne : (ValidateAttribute attrs[pos] opts).length ≠ 0
  · simp only [if_pos hne]
    rcases hk : (attrs[pos]).Value.kind <;> simp [hk]
  · have heq : ValidateAttribute attrs[pos] opts = [] := by simpa using hne
    simp [heq]

theorem evalPositions_ge (attrs : List StructAttribute) (opts : ValidationOptions) :
    ∀ (fuel start x : Nat), attrs.length - start ≤ fuel →
      x ∈ evalPositions attrs opts start → start ≤ x := by
  intro fuel
  induction fuel with
  | zero =>
    intro start x hle hx
    rw [evalPositions, dif_neg (by omega)] at hx
    simp at hx
  | succ n ih =>
    intro start x hle hx
    by_cases h : start < attrs.length
    · rw [evalPositions_unfold attrs opts start h] at hx
      rcases List.mem_cons.1 hx with rfl | hx
      · exact Nat.le_refl _
      · have := ih (start + stepOf attrs opts start h + 1) x (by omega) hx
        omega
    · rw [evalPositions, dif_neg h] at hx
      simp at hx

theorem evalPositions_skip_aux (attrs : List StructAttribute) (opts : ValidationOptions)
    (i j : Nat) (hi : i < attrs.length)
    (hne : (ValidateAttribute attrs[i] opts).length ≠ 0)
    (hkind : attrs[i].Value.kind = GoKind.kSlice ∨ attrs[i].Value.kind = GoKind.kArray)
    (hij : i < j) (hjs : j ≤ i + attrs[i].SkipsPastLastChild) :
    ∀ (fuel start : Nat), attrs.length - start ≤ fuel →
      i ∈ evalPositions attrs opts start → j ∉ evalPositions attrs opts start := by
  have hstepi : stepOf attrs opts i hi = attrs[i].SkipsPastLastChild := by
    rw [stepOf, if_pos hne]
    rcases hkind with hk | hk <;> rw [hk]
  intro fuel
  induction fuel with
  | zero =>
    intro start hle hmi _
    rw [evalPositions, dif_neg (by omega)] at hmi
    simp at hmi
  | succ n ih =>
    intro start hle hmi hmj
    by_cases h : start < attrs.length
    · rw [evalPositions_unfold attrs opts start h] at hmi hmj
      rcases List.mem_cons.1 hmi with rfl | hmi'
      · rcases List.mem_cons.1 hmj with hj1 | hmj'
        · omega
        · have hge := evalPositions_ge attrs opts attrs.length _ j (by omega) hmj'
          rw [hstepi] at hge
          omega
      · rcases List.mem_cons.1 hmj with hj1 | hmj'
        · have hge := evalPositions_ge attrs opts attrs.length _ i (by omega) hmi'
          omega
        · exact ih _ (by omega) hmi' hmj'
    · rw [evalPositions, dif_neg h] at hmi
      simp at hmi

theorem validateLoop_keys (attrs : List StructAttribute) (opts : ValidationOptions) :
    ∀ (fuel pos : Nat) (acc : List (String × List String)) (k : String) (e : List String),
      attrs.length - pos ≤ fuel →
      mapLookupErrs (validateLoop attrs opts pos acc) k = some e →
      mapLookupErrs acc k = some e ∨
        ∃ (p : Nat) (hp : p < attrs.length),
          p ∈ evalPositions attrs opts pos ∧ attrs[p].FullName = k := by
  intro fuel
  induction fuel with
  | zero =>
    intro pos acc k e hle h
    rw [validateLoop, dif_neg (by omega)] at h
    exact Or.inl h
  | succ n ih =>
    intro pos acc k e hle h
    by_cases hlt : pos < attrs.length
    · rw [validateLoop_unfold attrs opts pos acc hlt] at h
      rcases ih (pos + stepOf attrs opts pos hlt + 1) _ k e (by omega) h with h1 | ⟨p, hp, hmem, hfn⟩
      · by_cases hne : (ValidateAttribute attrs[pos] opts).length ≠ 0
        · rw [if_pos hne, mapLookupErrs_insert] at h1
          by_cases hk : k = attrs[pos].FullName
          · exact Or.inr ⟨pos, hlt, evalPositions_self_mem attrs opts pos hlt, hk.symm⟩
          · rw [if_neg hk] at h1
            exact Or.inl h1
        · rw [if_neg hne] at h1
          exact Or.inl h1
      · refine Or.inr ⟨p, hp, ?_, hfn⟩
        rw [evalPositions_unfold attrs opts pos hlt]
        exact List.mem_cons_of_mem _ hmem
    · rw [validateLoop, dif_neg hlt] at h
      exact Or.inl h

theorem oneBadUuid_validate :
    Validate oneBadUuidModel ⟨[], []⟩ = [("id", ["INVALID_FORMAT"])] := by
  have hwalk : GetAttributes oneBadUuidModel [] [] =
      [.mk (.str "x") ⟨"Id", "json:\"id\" validate:\"uuid\"", false⟩ [] [] 0 false] := by
    rw [show oneBadUuidModel = GoValue.strct
      [(⟨"Id", "json:\"id\" validate:\"uuid\"", false⟩, GoValue.str "x")] from rfl]
    rw [GetAttributes, getAttributes_strct, walkFields]
    simp only [PointerElement,
      show (⟨"Id", "json:\"id\" validate:\"uuid\"", false⟩ : SField).Anonymous = false from rfl,
      Bool.false_eq_true, if_false, ite_false,
      show shouldBeIncluded []
        (⟨"Id", "json:\"id\" validate:\"uuid\"", false⟩ : SField) = true from rfl,
      show Contains [] (⟨"Id", "json:\"id\" validate:\"uuid\"", false⟩ : SField).Name
        = false from rfl,
      Bool.not_true, Bool.or_false, List.nil_append]
    rw [walkFields_nil]
  have hva : ValidateAttribute (StructAttribute.mk (.str "x")
      ⟨"Id", "json:\"id\" validate:\"uuid\"", false⟩ [] [] 0 false) ⟨[], []⟩
      = ["INVALID_FORMAT"] := by decide
  have hfn : (StructAttribute.mk (.str "x")
      ⟨"Id", "json:\"id\" validate:\"uuid\"", false⟩ [] [] 0 false).FullName = "id" := by
    rw [StructAttribute.FullName]
    decide
  have hk : (StructAttribute.mk (.str "x")
      ⟨"Id", "json:\"id\" validate:\"uuid\"", false⟩ [] [] 0 false).Value.kind
      = GoKind.kString := by decide
  rw [Validate, show (⟨[], []⟩ : ValidationOptions).Ignore = [] from rfl, hwalk]
  simp [validateLoop, hva, hfn, hk, mapInsertErrs]

theorem C10_witness :
    mapLookupErrs (Validate oneBadUuidModel ⟨[], []⟩) "id" = some ["INVALID_FORMAT"] ∧
    (["INVALID_FORMAT"] : List String).length = 1 ∧
    (ValidateAttribute twoLenAttr ⟨[], []⟩).length ≤ 1 :=
  ⟨by rw [oneBadUuid_validate]; rfl,
   C10_at_most_one_code.2 oneBadUuidModel ⟨[], []⟩ "id" ["INVALID_FORMAT"]
     (by rw [oneBadUuid_validate]; rfl),
   C10_at_most_one_code.1 twoLenAttr ⟨[], []⟩⟩

/-- Claim C2 (amended): when a reached attribute yields error codes and is
of slice or array kind, the orchestrator advances the loop counter past
the next SkipsPastLastChild positions, none of which is evaluated; and
every key of the Validate output is the full name of an evaluated
position.  (SkipsPastLastChild does not in general cover all expanded
descendants: for a nonempty list of primitives it is always 3, because the
walker chains each element as the single child of its predecessor, so for
lists of length four or more the last elements fall outside the window and
do surface as keys.) -/
theorem C2_container_failure_skip_window :
    (∀ (attrs : List StructAttribute) (opts : ValidationOptions) (i j : Nat)
      (hi : i < attrs.length),
      (ValidateAttribute attrs[i] opts).length ≠ 0 →
      (attrs[i].Value.kind = GoKind.kSlice ∨ attrs[i].Value.kind = GoKind.kArray) →
      i < j → j ≤ i + attrs[i].SkipsPastLastChild →
      i ∈ evalPositions attrs opts 0 → j ∉ evalPositions attrs opts 0) ∧
    (∀ (model : GoValue) (opts : ValidationOptions) (k : String) (e : List String),
      mapLookupErrs (Validate model opts) k = some e →
      ∃ (p : Nat) (hp : p < (GetAttributes model [] opts.Ignore).length),
        p ∈ evalPositions (GetAttributes model [] opts.Ignore) opts 0 ∧
        (GetAttributes model [] opts.Ignore)[p].FullName = k) := by
  constructor
  · intro attrs opts i j hi hne hkind hij hjs hmem
    exact evalPositions_skip_aux attrs opts i j hi hne hkind hij hjs attrs.length 0
      (by omega) hmem
  · intro model opts k e h
    rw [Validate] at h
    rcases validateLoop_keys (GetAttributes model [] opts.Ignore) opts
      (GetAttributes model [] opts.Ignore).length 0 [] k e (by omega) h with h1 | h2
    · simp [mapLookupErrs] at h1
    · exact h2

/-- Witness for C2: in the two-attribute sequence of a failing list
container (malformed max= rule) followed by its one expanded child,
position 1 is inside the skip window and is not evaluated; and the key id
of the one-bad-uuid model's output is the full name of an evaluated
position. -/
theorem C2_witness :
    1 ∉ evalPositions [c2SkipAttr, c2SkipChild] ⟨[], []⟩ 0 ∧
    ∃ (p : Nat) (hp : p < (GetAttributes oneBadUuidModel [] []).length),
      p ∈ evalPositions (GetAttributes oneBadUuidModel [] []) ⟨[], []⟩ 0 ∧
      (GetAttributes oneBadUuidModel [] [])[p].FullName = "id" :=
  ⟨C2_container_failure_skip_window.1 [c2SkipAttr, c2SkipChild] ⟨[], []⟩ 0 1
      (by decide) (by decide) (by decide) (by decide) (by decide)
      (evalPositions_self_mem _ _ 0 (by decide)),
   C2_container_failure_skip_window.2 oneBadUuidModel ⟨[], []⟩ "id" ["INVALID_FORMAT"]
      (by rw [oneBadUuid_validate]; rfl)⟩

theorem c2walk :
    GetAttributes c2Model [] [] =
      [c2Sa.withChildren [c2Child "a" "emails[0]" 0],
       (c2Child "a" "emails[0]" 0).withChildren [c2Child "b" "emails[1]" 1],
       (c2Child "b" "emails[1]" 1).withChildren [c2Child "c" "emails[2]" 2],
       (c2Child "c" "emails[2]" 2).withChildren [c2Child "d" "emails[3]" 3],
       c2Child "d" "emails[3]" 3] := by
  have hstrip : RemoveValuesFromTag VALIDATION_TAG_KEYWORD NON_INHERITABLE_TAG_ATTRIBUTES
      (⟨"Emails", c2Tag, false⟩ : SField) = c2TagStripped := by
    simp [RemoveValuesFromTag, VALIDATION_TAG_KEYWORD, NON_INHERITABLE_TAG_ATTRIBUTES,
      c2Tag, c2TagStripped, GetTag, tagLookup, tagScan, tagNameChar, goSplit,
      splitOnCharL, splitFirstL, mapInsertStr, assocLookup, replaceAllL, patMatchAt,
      patCandidates, patSuffixes, firstMatch, matchLit]
  have hfn0 : (StructAttribute.mk (GoValue.str "a") default
      [StructAttribute.mk (GoValue.slice [.str "a", .str "b", .str "c", .str "d"])
        ⟨"Emails", c2Tag, false⟩ [] [] 0 false] [] (Int.ofNat 0) true).FullName
      = "emails[0]" := by
    rw [StructAttribute.FullName]
    simp [StructAttribute.FullName, GetJSONTagValue, GetTagValue, tagGet, tagLookup,
      tagScan, tagNameChar, goSplit, splitOnCharL, natDigitsL, intSprint, c2Tag,
      trimLeadingDot, trimTrailingDot, List.getLast]
  have hfn1 : (StructAttribute.mk (GoValue.str "b") default
      [StructAttribute.mk (GoValue.slice [.str "a", .str "b", .str "c", .str "d"])
        ⟨"Emails", c2Tag, false⟩ [] [] 0 false] [] (Int.ofNat 1) true).FullName
      = "emails[1]" := by
    rw [StructAttribute.FullName]
    simp [StructAttribute.FullName, GetJSONTagValue, GetTagValue, tagGet, tagLookup,
      tagScan, tagNameChar, goSplit, splitOnCharL, natDigitsL, intSprint, c2Tag,
      trimLeadingDot, trimTrailingDot, List.getLast]
  have hfn2 : (StructAttribute.mk (GoValue.str "c") default
      [StructAttribute.mk (GoValue.slice [.str "a", .str "b", .str "c", .str "d"])
        ⟨"Emails", c2Tag, false⟩ [] [] 0 false] [] (Int.ofNat 2) true).FullName
      = "emails[2]" := by
    rw [StructAttribute.FullName]
    simp [StructAttribute.FullName, GetJSONTagValue, GetTagValue, tagGet, tagLookup,
      tagScan, tagNameChar, goSplit, splitOnCharL, natDigitsL, intSprint, c2Tag,
      trimLeadingDot, trimTrailingDot, List.getLast]
  have hfn3 : (StructAttribute.mk (GoValue.str "d") default
      [StructAttribute.mk (GoValue.slice [.str "a", .str "b", .str "c", .str "d"])
        ⟨"Emails", c2Tag, false⟩ [] [] 0 false] [] (Int.ofNat 3) true).FullName
      = "emails[3]" := by
    rw [StructAttribute.FullName]
    simp [StructAttribute.FullName, GetJSONTagValue, GetTagValue, tagGet, tagLookup,
      tagScan, tagNameChar, goSplit, splitOnCharL, natDigitsL, intSprint, c2Tag,
      trimLeadingDot, trimTrailingDot, List.getLast]
  rw [show c2Model = GoValue.strct [((⟨"Emails", c2Tag, false⟩ : SField),
    GoValue.slice [.str "a", .str "b", .str "c", .str "d"])] from rfl]
  rw [GetAttributes, getAttributes_strct, walkFields_single_slice _ _ rfl]
  rw [show isListOfPrimitives (GoValue.slice [.str "a", .str "b", .str "c", .str "d"])
    = true from rfl]
  rw [walkElems]
  simp only [if_pos rfl, ite_true, hstrip, hfn0, updLast, StructAttribute.withChildren,
    StructAttribute.Children, StructAttribute.Field, List.nil_append, List.cons_append]
  rw [walkElems]
  simp only [if_pos rfl, ite_true, hstrip, hfn1, updLast, StructAttribute.withChildren,
    StructAttribute.Children, StructAttribute.Field, List.nil_append, List.cons_append]
  rw [walkElems]
  simp only [if_pos rfl, ite_true, hstrip, hfn2, updLast, StructAttribute.withChildren,
    StructAttribute.Children, StructAttribute.Field, List.nil_append, List.cons_append]
  rw [walkElems]
  simp only [if_pos rfl, ite_true, hstrip, hfn3, updLast, StructAttribute.withChildren,
    StructAttribute.Children, StructAttribute.Field, List.nil_append, List.cons_append]
  rw [walkElems_nil]
  simp [c2Sa, c2Child, c2List, c2Field, c2Tag, c2TagStripped, StructAttribute.withChildren]

theorem c2_validate :
    Validate c2Model ⟨[], []⟩ =
      [("emails", ["INVALID_LENGTH"]), ("emails[3]", ["INVALID_FORMAT"])] := by
  have hva0 : ValidateAttribute (c2Sa.withChildren [c2Child "a" "emails[0]" 0]) ⟨[], []⟩
      = ["INVALID_LENGTH"] := by
    simp [ValidateAttribute, validateRules, GetTagValues, tagLookup, tagScan, tagNameChar,
      goSplit, splitOnCharL, splitFirstL, ruleTypeOf, ruleValueOf, Contains,
      c2Sa, c2Child, c2List, c2Field, c2Tag, c2TagStripped, StructAttribute.withChildren,
      StructAttribute.Field, StructAttribute.Value, PointerElement,
      parsedLengthAttribute, parseGoFloat, parseMantissaL, parseDigitsL, parseExpL,
      isDigitChar, IsValidLength, GoValue.kind, Errors, EQUAL, MAX, MIN, CURRENCY,
      DATETIME, EMAIL, IN, UUID, VALIDATION_TAG_KEYWORD] <;> norm_num
  have hva4 : ValidateAttribute (c2Child "d" "emails[3]" 3) ⟨[], []⟩
      = ["INVALID_FORMAT"] := by decide
  have hsk : (c2Sa.withChildren [c2Child "a" "emails[0]" 0]).SkipsPastLastChild = 3 := by
    decide
  have hfn0 : (c2Sa.withChildren [c2Child "a" "emails[0]" 0]).FullName = "emails" := by
    rw [show c2Sa.withChildren [c2Child "a" "emails[0]" 0] = StructAttribute.mk c2List
      c2Field [] [c2Child "a" "emails[0]" 0] 0 false from rfl, StructAttribute.FullName]
    decide
  have hfn4 : (c2Child "d" "emails[3]" 3).FullName = "emails[3]" := by
    rw [show c2Child "d" "emails[3]" 3 = StructAttribute.mk (.str "d")
      ⟨"emails[3]", c2TagStripped, false⟩ [c2Sa] [] 3 true from rfl,
      StructAttribute.FullName]
    have hsa : c2Sa.FullName = "emails" := by
      rw [c2Sa, StructAttribute.FullName]
      decide
    simp [List.getLast, hsa, intSprint, natDigitsL]
  have hk0 : (c2Sa.withChildren [c2Child "a" "emails[0]" 0]).Value.kind
      = GoKind.kSlice := by decide
  have hk4 : (c2Child "d" "emails[3]" 3).Value.kind = GoKind.kString := by decide
  rw [Validate, show (⟨[], []⟩ : ValidationOptions).Ignore = [] from rfl, c2walk]
  simp [validateLoop, hva0, hva4, hsk, hfn0, hfn4, hk0, hk4, mapInsertErrs]

/-- Counterexample to C2 as stated: in the record with a four-element list
of non-uuid strings under validate uuid,max=3, the container attribute
emails fails with INVALID_LENGTH, yet its expanded descendant emails[3] (a
distinct attribute whose parent chain is the Emails field) still appears
as a separate key of the output mapping - the skip count is 3 for every
nonempty primitive list, so it does not hold for lists of every length. -/
theorem C2_counterexample :
    Validate c2Model ⟨[], []⟩ =
      [("emails", ["INVALID_LENGTH"]), ("emails[3]", ["INVALID_FORMAT"])] ∧
    (GetAttributes c2Model [] []).map StructAttribute.FullName =
      ["emails", "emails[0]", "emails[1]", "emails[2]", "emails[3]"] ∧
    (GetAttributes c2Model [] []).map (fun a => a.Parents.map (fun p => p.Field.Name)) =
      [[], ["Emails"], ["Emails"], ["Emails"], ["Emails"]] ∧
    (GetAttributes c2Model [] []).map (fun a => a.SkipsPastLastChild) = [3, 3, 3, 3, 0] := by
  have hfnc : ∀ (s nm : String) (i : Int) (cs : List StructAttribute), 0 ≤ i →
      ((c2Child s nm i).withChildren cs).FullName =
        "emails[" ++ intSprint i ++ "]" := by
    intro s nm i cs hi
    rw [show (c2Child s nm i).withChildren cs = StructAttribute.mk (.str s)
      ⟨nm, c2TagStripped, false⟩ [c2Sa] cs i true from rfl, StructAttribute.FullName]
    have hsa : c2Sa.FullName = "emails" := by
      rw [c2Sa, StructAttribute.FullName]
      decide
    simp [List.getLast, hsa, hi]
  have hfn0 : (c2Sa.withChildren [c2Child "a" "emails[0]" 0]).FullName = "emails" := by
    rw [show c2Sa.withChildren [c2Child "a" "emails[0]" 0] = StructAttribute.mk c2List
      c2Field [] [c2Child "a" "emails[0]" 0] 0 false from rfl, StructAttribute.FullName]
    decide
  have h1 := hfnc "a" "emails[0]" 0 [c2Child "b" "emails[1]" 1] (by decide)
  have h2 := hfnc "b" "emails[1]" 1 [c2Child "c" "emails[2]" 2] (by decide)
  have h3 := hfnc "c" "emails[2]" 2 [c2Child "d" "emails[3]" 3] (by decide)
  have h4 : (c2Child "d" "emails[3]" 3).FullName = "emails[" ++ intSprint 3 ++ "]" :=
    hfnc "d" "emails[3]" 3 [] (by decide)
  refine ⟨c2_validate, ?_, ?_, ?_⟩
  · rw [c2walk]
    simp only [List.map_cons, List.map_nil, hfn0, h1, h2, h3, h4]
    simp [intSprint, natDigitsL]
  · rw [c2walk]
    decide
  · rw [c2walk]
    decide

theorem walkFields_single_prim (fld : SField) (s : String) (p : List StructAttribute)
    (ci : Int) (hanon : fld.Anonymous = false)
    (hinc : shouldBeIncluded [] fld = true) (hign : Contains [] fld.Name = false) :
    walkFields [(fld, .str s)] p [] [] ci [] = [.mk (.str s) fld p [] ci false] := by
  rw [walkFields]
  simp only [hanon, PointerElement, Bool.false_eq_true, if_false, ite_false, hinc, hign,
    Bool.not_true, Bool.or_false, List.nil_append]
  rw [walkFields_nil]

theorem c6walk :
    GetAttributes c6Model [] [] =
      [c6ArticlesSa.withChildren [c6TitleA], c6TitleA, c6WeirdSa, c6TitleW] := by
  have hinner : getAttributes (GoValue.strct [(c6TitleF, GoValue.str "x")])
      [StructAttribute.mk (GoValue.slice [GoValue.strct [(c6TitleF, GoValue.str "x")]])
        c6Field1 [] [] 0 false] [] [] (Int.ofNat 0) = [c6TitleA] := by
    rw [getAttributes_strct, walkFields_single_prim _ _ _ _ rfl rfl rfl]
    rfl
  have hinner2 : getAttributes (GoValue.strct [(c6TitleF, GoValue.str "y")])
      [StructAttribute.mk (GoValue.strct [(c6TitleF, GoValue.str "y")])
        c6Field2 [] [] 0 false] [] [] (-1) = [c6TitleW] := by
    rw [getAttributes_strct, walkFields_single_prim _ _ _ _ rfl rfl rfl]
    rfl
  rw [show c6Model = GoValue.strct
    [(c6Field1, .slice [.strct [(c6TitleF, .str "x")]]),
     (c6Field2, .strct [(c6TitleF, .str "y")])] from rfl]
  rw [GetAttributes, getAttributes_strct, walkFields]
  simp only [show c6Field1.Anonymous = false from rfl, Bool.false_eq_true, if_false,
    ite_false, PointerElement, show shouldBeIncluded [] c6Field1 = true from rfl,
    show Contains [] c6Field1.Name = false from rfl, Bool.not_true, Bool.or_false,
    List.nil_append]
  rw [show isListOfPrimitives (GoValue.slice [.strct [(c6TitleF, .str "x")]])
    = false from rfl]
  rw [walkElems]
  simp only [Bool.false_eq_true, if_false, ite_false, hinner]
  rw [walkElems_nil]
  simp only [List.length_cons, List.length_nil, ne_eq, Nat.succ_ne_zero,
    not_false_eq_true, if_true, ite_true, updLast, StructAttribute.withChildren,
    StructAttribute.Children, List.nil_append, List.cons_append]
  rw [walkFields]
  simp only [show c6Field2.Anonymous = false from rfl, Bool.false_eq_true, if_false,
    ite_false, PointerElement, show shouldBeIncluded [] c6Field2 = true from rfl,
    show Contains [] c6Field2.Name = false from rfl, Bool.not_true, Bool.or_false,
    List.nil_append, hinner2]
  rw [walkFields_nil]
  simp [c6ArticlesSa, c6TitleA, c6WeirdSa, c6TitleW, StructAttribute.withChildren,
    c6Field1, c6Field2, c6TitleF]

/-- Counterexample to C6 as stated: the record has pairwise-distinct
external names at every nesting level (articles and articles[0] at the
top, a single title inside each), yet the walk emits two distinct
attributes - the title under the first articles element (list position 0)
and the title under the bracket-named articles[0] field (list position
-1) - whose full names are both articles[0].title. -/
theorem C6_counterexample :
    (GetAttributes c6Model [] []).map StructAttribute.FullName =
      ["articles", "articles[0].title", "articles[0]", "articles[0].title"] ∧
    ((GetAttributes c6Model [] []).getD 1 dfltAttr).ListPosition ≠
      ((GetAttributes c6Model [] []).getD 3 dfltAttr).ListPosition ∧
    [GetJSONTagValue c6Field1, GetJSONTagValue c6Field2].Nodup ∧
    ((GetAttributes c6Model [] []).getD 1 dfltAttr).FullName =
      ((GetAttributes c6Model [] []).getD 3 dfltAttr).FullName := by
  have hsa : (c6ArticlesSa.withChildren [c6TitleA]).FullName = "articles" := by
    rw [show c6ArticlesSa.withChildren [c6TitleA] = StructAttribute.mk
      (GoValue.slice [.strct [(c6TitleF, .str "x")]]) c6Field1 [] [c6TitleA] 0 false
      from rfl, StructAttribute.FullName]
    decide
  have hta : c6TitleA.FullName = "articles[0].title" := by
    rw [c6TitleA, StructAttribute.FullName]
    have h0 : c6ArticlesSa.FullName = "articles" := by
      rw [c6ArticlesSa, StructAttribute.FullName]
      decide
    simp [List.getLast, h0, intSprint, natDigitsL, GetJSONTagValue, GetTagValue, tagGet,
      tagLookup, tagScan, tagNameChar, goSplit, splitOnCharL, c6TitleF,
      trimLeadingDot, trimTrailingDot]
  have hws : c6WeirdSa.FullName = "articles[0]" := by
    rw [c6WeirdSa, StructAttribute.FullName]
    decide
  have htw : c6TitleW.FullName = "articles[0].title" := by
    rw [c6TitleW, StructAttribute.FullName]
    simp [List.getLast, hws, GetJSONTagValue, GetTagValue, tagGet,
      tagLookup, tagScan, tagNameChar, goSplit, splitOnCharL, c6TitleF,
      trimLeadingDot, trimTrailingDot]
  refine ⟨?_, ?_, ?_, ?_⟩
  · rw [c6walk]
    simp only [List.map_cons, List.map_nil, hsa, hta, hws, htw]
  · rw [c6walk]
    decide
  · decide
  · rw [c6walk]
    simp only [List.getD, List.get?, Option.getD_some]
    rw [hta, htw]

theorem chainConsistent_getLast (v : GoValue) (f : SField) (P C : List StructAttribute)
    (lp : Int) (ip : Bool) (hP : P ≠ [])
    (h : ChainConsistent (.mk v f P C lp ip)) :
    ChainConsistent (P.getLast hP) ∧ (P.getLast hP).Parents = P.dropLast := by
  have h' : ∀ (i : Nat) (hi : i < P.length), (P[i]).Parents = P.take i := by
    intro i hi
    exact h i hi
  have hlen : 0 < P.length := List.length_pos.2 hP
  have hgl : P.getLast hP = P[P.length - 1] := List.getLast_eq_getElem P hP
  have hp1 : (P.getLast hP).Parents = P.take (P.length - 1) := by
    rw [hgl]
    exact h' _ (by omega)
  have hdl : P.take (P.length - 1) = P.dropLast := (List.dropLast_eq_take P).symm
  refine ⟨?_, by rw [hp1, hdl]⟩
  intro i hi
  have hi2 : i < (P.take (P.length - 1)).length := by
    rw [← hp1]
    exact hi
  have hi' : i < P.length - 1 := by
    simpa using hi2
  have hip : i < P.length := by
    omega
  have hstep : (P.getLast hP).Parents[i] = (P.take (P.length - 1))[i] :=
    List.getElem_of_eq hp1 hi
  rw [hstep, hp1]
  have hget : (P.take (P.length - 1))[i] = P[i] :=
    List.getElem_take _
  rw [hget, h' i (by omega), List.take_take]
  congr 1
  omega

theorem fullname_eq_renderRev :
    ∀ (n : Nat) (a : StructAttribute), a.Parents.length ≤ n →
      ChainConsistent a → a.FullName = renderRev (chainRev a) := by
  intro n
  induction n with
  | zero =>
    intro a hlen hcc
    match a with
    | .mk v f P C lp ip =>
      have hP : P = [] := by
        cases P with
        | nil => rfl
        | cons p ps => simp [StructAttribute.Parents] at hlen
      subst hP
      rw [StructAttribute.FullName]
      simp [chainRev, renderRev, sigOf, StructAttribute.Field]
  | succ n ih =>
    intro a hlen hcc
    match a with
    | .mk v f P C lp ip =>
      match P with
      | [] =>
        rw [StructAttribute.FullName]
        simp [chainRev, renderRev, sigOf, StructAttribute.Field]
      | p :: ps =>
        have hlen' : ps.length + 1 ≤ n + 1 := by
          simpa [StructAttribute.Parents] using hlen
        obtain ⟨hccq, hparq⟩ := chainConsistent_getLast v f (p :: ps) C lp ip (by simp) hcc
        have hq := ih ((p :: ps).getLast (by simp))
          (by rw [hparq]; simp only [List.length_dropLast, List.length_cons]; omega) hccq
        have hch : chainRev ((p :: ps).getLast (by simp)) =
            (p :: ps).reverse.map sigOf := by
          rw [chainRev, hparq, List.dropLast_append_getLast]
        rw [hch] at hq
        have hcr : chainRev (.mk v f (p :: ps) C lp ip) =
            sigOf (.mk v f (p :: ps) C lp ip) :: (p :: ps).reverse.map sigOf := by
          rw [chainRev]
          simp [StructAttribute.Parents, List.reverse_append]
        rw [hcr]
        have hne : (p :: ps).reverse.map sigOf ≠ [] := by simp
        obtain ⟨r, rs, hr⟩ := List.exists_cons_of_ne_nil hne
        rw [hr]
        rw [show renderRev (sigOf (.mk v f (p :: ps) C lp ip) :: r :: rs) =
          (let scope0 := renderRev (r :: rs)
           let scope := if 0 ≤ lp then scope0 ++ "[" ++ intSprint lp ++ "]" else scope0
           if ip then scope
           else trimTrailingDot (trimLeadingDot (scope ++ "." ++ GetJSONTagValue f)))
          from rfl]
        rw [← hr, ← hq]
        rw [StructAttribute.FullName]

theorem natDigitsL_ne_nil (n : Nat) : natDigitsL n ≠ [] := by
  rw [natDigitsL]
  split <;> simp

theorem natDigitsL_clean (n : Nat) :
    ∀ c ∈ natDigitsL n, c ≠ '[' ∧ c ≠ ']' ∧ c ≠ '.' := by
  induction n using Nat.strong_induction_on with
  | _ n ih =>
    have hd : ∀ d, d < 10 → Char.ofNat (48 + d) ≠ '[' ∧ Char.ofNat (48 + d) ≠ ']' ∧
        Char.ofNat (48 + d) ≠ '.' := by decide
    rw [natDigitsL]
    split
    · rename_i h
      intro c hc
      simp at hc
      subst hc
      exact hd n h
    · rename_i h
      intro c hc
      rcases List.mem_append.1 hc with h1 | h1
      · exact ih (n / 10) (Nat.div_lt_self (by omega) (by omega)) c h1
      · simp at h1
        subst h1
        exact hd (n % 10) (Nat.mod_lt _ (by omega))

theorem natDigitsL_inj : ∀ (m n : Nat), natDigitsL m = natDigitsL n → m = n := by
  intro m
  induction m using Nat.strong_induction_on with
  | _ m ih =>
    intro n h
    have hinj1 : ∀ d, d < 10 → ∀ e, e < 10 →
        Char.ofNat (48 + d) = Char.ofNat (48 + e) → d = e := by decide
    have hunf : ∀ k, natDigitsL k = if k < 10 then [Char.ofNat (48 + k)]
        else natDigitsL (k / 10) ++ [Char.ofNat (48 + k % 10)] := by
      intro k
      rw [natDigitsL]
    rw [hunf m, hunf n] at h
    by_cases hm : m < 10 <;> by_cases hn : n < 10
    · rw [if_pos hm, if_pos hn] at h
      simp at h
      exact hinj1 m hm n hn h
    · rw [if_pos hm, if_neg hn] at h
      have hl := congrArg List.length h
      simp at hl
      have h2 := natDigitsL_ne_nil (n / 10)
      cases hdig : natDigitsL (n / 10) with
      | nil => exact absurd hdig h2
      | cons x xs =>
        rw [hdig] at hl
        simp at hl
    · rw [if_neg hm, if_pos hn] at h
      have hl := congrArg List.length h
      simp at hl
      have h2 := natDigitsL_ne_nil (m / 10)
      cases hdig : natDigitsL (m / 10) with
      | nil => exact absurd hdig h2
      | cons x xs =>
        rw [hdig] at hl
        simp at hl
    · rw [if_neg hm, if_neg hn] at h
      have hdrop := congrArg List.dropLast h
      simp only [List.dropLast_concat] at hdrop
      have hlast := congrArg List.getLast? h
      simp only [List.getLast?_concat] at hlast
      simp at hlast
      have hq := ih (m / 10) (Nat.div_lt_self (by omega) (by omega)) (n / 10) hdrop
      have hr := hinj1 (m % 10) (Nat.mod_lt _ (by omega)) (n % 10)
        (Nat.mod_lt _ (by omega)) hlast
      omega

theorem takeWhile_append_stop (p : Char → Bool) :
    ∀ (u : List Char) (x : Char) (v : List Char), (∀ c ∈ u, p c = true) → p x = false →
      (u ++ x :: v).takeWhile p = u ∧ (u ++ x :: v).dropWhile p = x :: v := by
  intro u
  induction u with
  | nil =>
    intro x v _ hx
    simp [List.takeWhile_cons, List.dropWhile_cons, hx]
  | cons c cs ih =>
    intro x v hu hx
    have hc : p c = true := hu c (by simp)
    have hr := ih x v (fun d hd => hu d (by simp [hd])) hx
    simp [List.takeWhile_cons, List.dropWhile_cons, hc, hr.1, hr.2]

theorem last_sep_decomp (sep : Char) (x1 t1 x2 t2 : List Char)
    (h1 : ∀ c ∈ t1, c ≠ sep) (h2 : ∀ c ∈ t2, c ≠ sep)
    (he : x1 ++ sep :: t1 = x2 ++ sep :: t2) : x1 = x2 ∧ t1 = t2 := by
  have hrev := congrArg List.reverse he
  simp only [List.reverse_append, List.reverse_cons, List.append_assoc,
    List.singleton_append] at hrev
  have hd1 := takeWhile_append_stop (fun c => !(c = sep)) t1.reverse sep x1.reverse
    (fun c hc => by simp; exact h1 c (List.mem_reverse.1 hc)) (by simp)
  have hd2 := takeWhile_append_stop (fun c => !(c = sep)) t2.reverse sep x2.reverse
    (fun c hc => by simp; exact h2 c (List.mem_reverse.1 hc)) (by simp)
  have e1 : t1.reverse = t2.reverse := by rw [← hd1.1, ← hd2.1, hrev]
  have e2 : sep :: x1.reverse = sep :: x2.reverse := by rw [← hd1.2, ← hd2.2, hrev]
  constructor
  · have e2' : x1.reverse = x2.reverse := by injection e2
    exact List.reverse_injective e2'
  · exact List.reverse_injective e1

theorem mem_of_head? {l : List Char} {a : Char} (h : l.head? = some a) : a ∈ l := by
  cases l with
  | nil => simp at h
  | cons b r =>
    simp at h
    simp [h]

theorem mem_of_getLast? {l : List Char} {a : Char} (h : l.getLast? = some a) : a ∈ l := by
  have h2 : l.reverse.head? = some a := by
    rw [← List.getLast?_eq_head?_reverse]
    exact h
  exact List.mem_reverse.1 (mem_of_head? h2)

theorem head?_append_left (l1 l2 : List Char) (h : l1 ≠ []) :
    (l1 ++ l2).head? = l1.head? := by
  cases l1 with
  | nil => exact absurd rfl h
  | cons a r => rfl

theorem getLast?_append_right (l1 l2 : List Char) (h : l2 ≠ []) :
    (l1 ++ l2).getLast? = l2.getLast? := by
  rw [List.getLast?_eq_head?_reverse, List.getLast?_eq_head?_reverse, List.reverse_append]
  exact head?_append_left _ _ (by simpa using h)

theorem trimLeadingDot_noop (s : String)
    (h : ∀ ch, s.data.head? = some ch → ch ≠ '.') : trimLeadingDot s = s := by
  rw [show trimLeadingDot s = (match s.data with
    | '.' :: rest => String.mk rest
    | _ => s) from rfl]
  split
  · rename_i rest heq
    exact absurd rfl (h '.' (by rw [heq]; rfl))
  · rfl

theorem trimTrailingDot_noop (s : String)
    (h : ∀ ch, s.data.getLast? = some ch → ch ≠ '.') : trimTrailingDot s = s := by
  rw [show trimTrailingDot s = (match s.data.getLast? with
    | some '.' => String.mk s.data.dropLast
    | _ => s) from rfl]
  split
  · rename_i heq
    exact absurd rfl (h '.' heq)
  · rfl

theorem cleanNameB_spec (nm : String) (h : cleanNameB nm = true) :
    nm.data ≠ [] ∧ ∀ c ∈ nm.data, c ≠ '[' ∧ c ≠ ']' ∧ c ≠ '.' := by
  rw [cleanNameB, Bool.and_eq_true] at h
  constructor
  · intro hnil
    rw [hnil] at h
    simp at h
  · intro c hc
    have h2 := List.all_eq_true.1 h.2 c hc
    simp at h2
    exact ⟨h2.1.1, h2.1.2, h2.2⟩

theorem renderRev_spec :
    ∀ (n : Nat) (c : List (String × Int × Bool)), c.length ≤ n → cleanRevB c = true →
      (renderRev c).data ≠ [] ∧
      (∀ ch, (renderRev c).data.head? = some ch → ch ≠ '[' ∧ ch ≠ ']' ∧ ch ≠ '.') ∧
      (endsBracketB c = true → (renderRev c).data.getLast? = some ']') ∧
      (endsBracketB c = false → ∀ ch, (renderRev c).data.getLast? = some ch →
        ch ≠ '[' ∧ ch ≠ ']' ∧ ch ≠ '.') := by
  intro n
  induction n with
  | zero =>
    intro c hlen hcl
    match c with
    | [] =>
      rw [show cleanRevB ([] : List (String × Int × Bool)) = false from rfl] at hcl
      simp at hcl
    | s :: t => simp at hlen
  | succ n ih =>
    intro c hlen hcl
    match c with
    | [] =>
      rw [show cleanRevB ([] : List (String × Int × Bool)) = false from rfl] at hcl
      simp at hcl
    | [s] =>
      have hname := cleanNameB_spec s.1 (by
        rw [show cleanRevB [s] = cleanNameB s.1 from rfl] at hcl
        exact hcl)
      rw [show renderRev [s] = s.1 from rfl]
      refine ⟨hname.1, ?_, ?_, ?_⟩
      · intro ch hch
        exact hname.2 ch (mem_of_head? hch)
      · intro hb
        rw [show endsBracketB [s] = false from rfl] at hb
        simp at hb
      · intro _ ch hch
        exact hname.2 ch (mem_of_getLast? hch)
    | s :: r :: rs =>
      have hcl' : cleanNameB s.1 = true ∧ (!s.2.2 || decide (0 ≤ s.2.1)) = true ∧
          (r :: rs).all (fun t => !t.2.2) = true ∧ cleanRevB (r :: rs) = true := by
        rw [show cleanRevB (s :: r :: rs) = (cleanNameB s.1 &&
          (!s.2.2 || decide (0 ≤ s.2.1)) && (r :: rs).all (fun t => !t.2.2) &&
          cleanRevB (r :: rs)) from rfl] at hcl
        simp only [Bool.and_eq_true] at hcl
        exact ⟨hcl.1.1.1, hcl.1.1.2, hcl.1.2, hcl.2⟩
      obtain ⟨hname0, hprim0, hall0, hrest0⟩ := hcl'
      have hname := cleanNameB_spec s.1 hname0
      have hihr := ih (r :: rs) (by simp at hlen ⊢; omega) hrest0
      have hrnonprim : r.2.2 = false := by
        have := List.all_eq_true.1 hall0 r (by simp)
        simpa using this
      have hebr : endsBracketB (r :: rs) = false := by
        match rs with
        | [] => rfl
        | t :: ts => rw [show endsBracketB (r :: t :: ts) = r.2.2 from rfl, hrnonprim]
      have hscne : (renderRev (r :: rs)).data ≠ [] := hihr.1
      have hscend : ∀ ch, (renderRev (r :: rs)).data.getLast? = some ch →
          ch ≠ '[' ∧ ch ≠ ']' ∧ ch ≠ '.' := hihr.2.2.2 hebr
      have hschead : ∀ ch, (renderRev (r :: rs)).data.head? = some ch →
          ch ≠ '[' ∧ ch ≠ ']' ∧ ch ≠ '.' := hihr.2.1
      have hru : renderRev (s :: r :: rs) =
          (if s.2.2 then
            (if 0 ≤ s.2.1 then renderRev (r :: rs) ++ "[" ++ intSprint s.2.1 ++ "]"
             else renderRev (r :: rs))
           else trimTrailingDot (trimLeadingDot
            ((if 0 ≤ s.2.1 then renderRev (r :: rs) ++ "[" ++ intSprint s.2.1 ++ "]"
              else renderRev (r :: rs)) ++ "." ++ s.1))) := rfl
      by_cases hp : s.2.2 = true
      · have hpos : 0 ≤ s.2.1 := by
          rw [hp] at hprim0
          simpa using hprim0
        have hdata : (renderRev (s :: r :: rs)).data =
            ((renderRev (r :: rs)).data ++ '[' :: (intSprint s.2.1).data) ++ [']'] := by
          rw [hru, if_pos hp, if_pos hpos]
          simp [String.data_append]
        refine ⟨?_, ?_, ?_, ?_⟩
        · rw [hdata]
          simp
        · intro ch hch
          rw [hdata, head?_append_left _ _ (by simp [hscne]),
            head?_append_left _ _ hscne] at hch
          exact hschead ch hch
        · intro _
          rw [hdata, List.getLast?_concat]
        · intro hb
          rw [show endsBracketB (s :: r :: rs) = s.2.2 from rfl, hp] at hb
          simp at hb
      · have hp' : s.2.2 = false := by
          cases hsb : s.2.2
          · rfl
          · exact absurd hsb hp
        have hSfacts : ∀ (S : String), S.data ≠ [] →
            (∀ ch, S.data.head? = some ch → ch ≠ '[' ∧ ch ≠ ']' ∧ ch ≠ '.') →
            (renderRev (s :: r :: rs)).data = (S.data ++ ['.']) ++ s.1.data →
            (renderRev (s :: r :: rs)).data ≠ [] ∧
            (∀ ch, (renderRev (s :: r :: rs)).data.head? = some ch →
              ch ≠ '[' ∧ ch ≠ ']' ∧ ch ≠ '.') ∧
            (endsBracketB (s :: r :: rs) = true →
              (renderRev (s :: r :: rs)).data.getLast? = some ']') ∧
            (endsBracketB (s :: r :: rs) = false →
              ∀ ch, (renderRev (s :: r :: rs)).data.getLast? = some ch →
                ch ≠ '[' ∧ ch ≠ ']' ∧ ch ≠ '.') := by
          intro S hSne hShead hdata
          refine ⟨?_, ?_, ?_, ?_⟩
          · rw [hdata]
            simp [hname.1]
          · intro ch hch
            rw [hdata, head?_append_left _ _ (by simp [hSne]),
              head?_append_left _ _ hSne] at hch
            exact hShead ch hch
          · intro hb
            rw [show endsBracketB (s :: r :: rs) = s.2.2 from rfl, hp'] at hb
            simp at hb
          · intro _ ch hch
            rw [hdata, getLast?_append_right _ _ hname.1] at hch
            exact hname.2 ch (mem_of_getLast? hch)
        by_cases hpos : 0 ≤ s.2.1
        · have hSne : (renderRev (r :: rs) ++ "[" ++ intSprint s.2.1 ++ "]").data ≠ [] := by
            simp [String.data_append]
          have hShead : ∀ ch,
              (renderRev (r :: rs) ++ "[" ++ intSprint s.2.1 ++ "]").data.head? = some ch →
              ch ≠ '[' ∧ ch ≠ ']' ∧ ch ≠ '.' := by
            intro ch hch
            have hda : (renderRev (r :: rs) ++ "[" ++ intSprint s.2.1 ++ "]").data =
                (renderRev (r :: rs)).data ++
                  ('[' :: (intSprint s.2.1).data ++ [']']) := by
              simp [String.data_append]
            rw [hda, head?_append_left _ _ hscne] at hch
            exact hschead ch hch
          have hTne : ∀ ch,
              ((renderRev (r :: rs) ++ "[" ++ intSprint s.2.1 ++ "]") ++ "." ++ s.1).data.head?
                = some ch → ch ≠ '.' := by
            intro ch hch
            have hda : ((renderRev (r :: rs) ++ "[" ++ intSprint s.2.1 ++ "]") ++ "."
                ++ s.1).data = (renderRev (r :: rs) ++ "[" ++ intSprint s.2.1 ++ "]").data
                  ++ ('.' :: s.1.data) := by
              simp [String.data_append]
            rw [hda, head?_append_left _ _ hSne] at hch
            exact (hShead ch hch).2.2
          have hTlast : ∀ ch,
              ((renderRev (r :: rs) ++ "[" ++ intSprint s.2.1 ++ "]") ++ "." ++ s.1).data.getLast?
                = some ch → ch ≠ '.' := by
            intro ch hch
            have hda : ((renderRev (r :: rs) ++ "[" ++ intSprint s.2.1 ++ "]") ++ "."
                ++ s.1).data = ((renderRev (r :: rs) ++ "[" ++ intSprint s.2.1 ++ "]").data
                  ++ ['.']) ++ s.1.data := by
              simp [String.data_append]
            rw [hda, getLast?_append_right _ _ hname.1] at hch
            exact (hname.2 ch (mem_of_getLast? hch)).2.2
          have hrender : renderRev (s :: r :: rs) =
              (renderRev (r :: rs) ++ "[" ++ intSprint s.2.1 ++ "]") ++ "." ++ s.1 := by
            rw [hru, if_neg (by simp [hp']), if_pos hpos,
              trimLeadingDot_noop _ hTne, trimTrailingDot_noop _ hTlast]
          refine hSfacts (renderRev (r :: rs) ++ "[" ++ intSprint s.2.1 ++ "]")
            hSne hShead ?_
          rw [hrender]
          simp [String.data_append]
        · have hTne : ∀ ch, ((renderRev (r :: rs)) ++ "." ++ s.1).data.head? = some ch →
              ch ≠ '.' := by
            intro ch hch
            have hda : ((renderRev (r :: rs)) ++ "." ++ s.1).data =
                (renderRev (r :: rs)).data ++ ('.' :: s.1.data) := by
              simp [String.data_append]
            rw [hda, head?_append_left _ _ hscne] at hch
            exact (hschead ch hch).2.2
          have hTlast : ∀ ch, ((renderRev (r :: rs)) ++ "." ++ s.1).data.getLast? = some ch →
              ch ≠ '.' := by
            intro ch hch
            have hda : ((renderRev (r :: rs)) ++ "." ++ s.1).data =
                ((renderRev (r :: rs)).data ++ ['.']) ++ s.1.data := by
              simp [String.data_append]
            rw [hda, getLast?_append_right _ _ hname.1] at hch
            exact (hname.2 ch (mem_of_getLast? hch)).2.2
          have hrender : renderRev (s :: r :: rs) = (renderRev (r :: rs)) ++ "." ++ s.1 := by
            rw [hru, if_neg (by simp [hp']), if_neg hpos,
              trimLeadingDot_noop _ hTne, trimTrailingDot_noop _ hTlast]
          refine hSfacts (renderRev (r :: rs)) hscne hschead ?_
          rw [hrender]
          simp [String.data_append]

theorem cleanRevB_cons_parts (s r : String × Int × Bool) (rs : List (String × Int × Bool))
    (hcl : cleanRevB (s :: r :: rs) = true) :
    cleanNameB s.1 = true ∧ (s.2.2 = true → 0 ≤ s.2.1) ∧ r.2.2 = false ∧
      cleanRevB (r :: rs) = true := by
  rw [show cleanRevB (s :: r :: rs) = (cleanNameB s.1 &&
    (!s.2.2 || decide (0 ≤ s.2.1)) && (r :: rs).all (fun t => !t.2.2) &&
    cleanRevB (r :: rs)) from rfl] at hcl
  simp only [Bool.and_eq_true] at hcl
  refine ⟨hcl.1.1.1, ?_, ?_, hcl.2⟩
  · intro hp
    have := hcl.1.1.2
    rw [hp] at this
    simpa using this
  · have := List.all_eq_true.1 hcl.1.2 r (by simp)
    simpa using this

theorem renderRev_prim_decomp (s r : String × Int × Bool) (rs : List (String × Int × Bool))
    (hcl : cleanRevB (s :: r :: rs) = true) (hp : s.2.2 = true) :
    0 ≤ s.2.1 ∧ (renderRev (s :: r :: rs)).data =
      ((renderRev (r :: rs)).data ++ '[' :: natDigitsL s.2.1.toNat) ++ [']'] := by
  obtain ⟨_, hpos0, _, _⟩ := cleanRevB_cons_parts s r rs hcl
  have hpos := hpos0 hp
  refine ⟨hpos, ?_⟩
  rw [show renderRev (s :: r :: rs) =
      (if s.2.2 then
        (if 0 ≤ s.2.1 then renderRev (r :: rs) ++ "[" ++ intSprint s.2.1 ++ "]"
         else renderRev (r :: rs))
       else trimTrailingDot (trimLeadingDot
        ((if 0 ≤ s.2.1 then renderRev (r :: rs) ++ "[" ++ intSprint s.2.1 ++ "]"
          else renderRev (r :: rs)) ++ "." ++ s.1))) from rfl]
  rw [if_pos hp, if_pos hpos]
  have hdig : (intSprint s.2.1).data = natDigitsL s.2.1.toNat := by
    rw [intSprint, if_neg (by omega)]
  simp [String.data_append, hdig]

theorem renderRev_nonprim_decomp (s r : String × Int × Bool)
    (rs : List (String × Int × Bool))
    (hcl : cleanRevB (s :: r :: rs) = true) (hp : s.2.2 = false) :
    (renderRev (s :: r :: rs)).data =
      ((if 0 ≤ s.2.1 then
          ((renderRev (r :: rs)).data ++ '[' :: natDigitsL s.2.1.toNat) ++ [']']
        else (renderRev (r :: rs)).data) ++ ['.']) ++ s.1.data := by
  obtain ⟨hname0, _, hrnp, hrest0⟩ := cleanRevB_cons_parts s r rs hcl
  have hname := cleanNameB_spec s.1 hname0
  have hsp := renderRev_spec (r :: rs).length (r :: rs) (le_refl _) hrest0
  have hscne := hsp.1
  have hschead := hsp.2.1
  rw [show renderRev (s :: r :: rs) =
      (if s.2.2 then
        (if 0 ≤ s.2.1 then renderRev (r :: rs) ++ "[" ++ intSprint s.2.1 ++ "]"
         else renderRev (r :: rs))
       else trimTrailingDot (trimLeadingDot
        ((if 0 ≤ s.2.1 then renderRev (r :: rs) ++ "[" ++ intSprint s.2.1 ++ "]"
          else renderRev (r :: rs)) ++ "." ++ s.1))) from rfl]
  rw [if_neg (by simp [hp])]
  by_cases hpos : 0 ≤ s.2.1
  · have hdig : (intSprint s.2.1).data = natDigitsL s.2.1.toNat := by
      rw [intSprint, if_neg (by omega)]
    have hTne : ∀ ch,
        ((renderRev (r :: rs) ++ "[" ++ intSprint s.2.1 ++ "]") ++ "." ++ s.1).data.head?
          = some ch → ch ≠ '.' := by
      intro ch hch
      have hda : ((renderRev (r :: rs) ++ "[" ++ intSprint s.2.1 ++ "]") ++ "."
          ++ s.1).data = (renderRev (r :: rs)).data ++
            ('[' :: (intSprint s.2.1).data ++ [']'] ++ ('.' :: s.1.data)) := by
        simp [String.data_append]
      rw [hda, head?_append_left _ _ hscne] at hch
      exact (hschead ch hch).2.2
    have hTlast : ∀ ch,
        ((renderRev (r :: rs) ++ "[" ++ intSprint s.2.1 ++ "]") ++ "." ++ s.1).data.getLast?
          = some ch → ch ≠ '.' := by
      intro ch hch
      have hda : ((renderRev (r :: rs) ++ "[" ++ intSprint s.2.1 ++ "]") ++ "."
          ++ s.1).data = ((renderRev (r :: rs) ++ "[" ++ intSprint s.2.1 ++ "]").data
            ++ ['.']) ++ s.1.data := by
        simp [String.data_append]
      rw [hda, getLast?_append_right _ _ hname.1] at hch
      exact (hname.2 ch (mem_of_getLast? hch)).2.2
    rw [if_pos hpos, trimLeadingDot_noop _ hTne, trimTrailingDot_noop _ hTlast]
    rw [if_pos hpos]
    simp [String.data_append, hdig]
  · have hTne : ∀ ch, ((renderRev (r :: rs)) ++ "." ++ s.1).data.head? = some ch →
        ch ≠ '.' := by
      intro ch hch
      have hda : ((renderRev (r :: rs)) ++ "." ++ s.1).data =
          (renderRev (r :: rs)).data ++ ('.' :: s.1.data) := by
        simp [String.data_append]
      rw [hda, head?_append_left _ _ hscne] at hch
      exact (hschead ch hch).2.2
    have hTlast : ∀ ch, ((renderRev (r :: rs)) ++ "." ++ s.1).data.getLast? = some ch →
        ch ≠ '.' := by
      intro ch hch
      have hda : ((renderRev (r :: rs)) ++ "." ++ s.1).data =
          ((renderRev (r :: rs)).data ++ ['.']) ++ s.1.data := by
        simp [String.data_append]
      rw [hda, getLast?_append_right _ _ hname.1] at hch
      exact (hname.2 ch (mem_of_getLast? hch)).2.2
    rw [if_neg hpos, trimLeadingDot_noop _ hTne, trimTrailingDot_noop _ hTlast]
    rw [if_neg hpos]
    simp [String.data_append]

theorem render_single_ne_conscons (s1 s2 r2 : String × Int × Bool)
    (rs2 : List (String × Int × Bool))
    (h1 : cleanRevB [s1] = true) (h2 : cleanRevB (s2 :: r2 :: rs2) = true) :
    renderRev [s1] ≠ renderRev (s2 :: r2 :: rs2) := by
  intro hr
  have hname1 := cleanNameB_spec s1.1 (by
    rw [show cleanRevB [s1] = cleanNameB s1.1 from rfl] at h1
    exact h1)
  rw [show renderRev [s1] = s1.1 from rfl] at hr
  by_cases hp2 : s2.2.2 = true
  · have hsp := renderRev_spec (s2 :: r2 :: rs2).length (s2 :: r2 :: rs2) (le_refl _) h2
    have hend := hsp.2.2.1 (by
      rw [show endsBracketB (s2 :: r2 :: rs2) = s2.2.2 from rfl]
      exact hp2)
    rw [← hr] at hend
    exact (hname1.2 ']' (mem_of_getLast? hend)).2.1 rfl
  · have hp2' : s2.2.2 = false := by
      cases hsb : s2.2.2
      · rfl
      · exact absurd hsb hp2
    have hd2 := renderRev_nonprim_decomp s2 r2 rs2 h2 hp2'
    have hmem : '.' ∈ (renderRev (s2 :: r2 :: rs2)).data := by
      rw [hd2]
      simp
    rw [← hr] at hmem
    exact (hname1.2 '.' hmem).2.2 rfl

theorem renderRev_inj :
    ∀ (n : Nat) (c1 c2 : List (String × Int × Bool)), c1.length ≤ n →
      cleanRevB c1 = true → cleanRevB c2 = true →
      renderRev c1 = renderRev c2 → visible c1 = visible c2 := by
  intro n
  induction n with
  | zero =>
    intro c1 c2 hlen h1 h2 hr
    rcases c1 with _ | ⟨s1, t1⟩
    · rw [show cleanRevB ([] : List (String × Int × Bool)) = false from rfl] at h1
      simp at h1
    · simp at hlen
  | succ n ih =>
    intro c1 c2 hlen h1 h2 hr
    rcases c1 with _ | ⟨s1, _ | ⟨r1, rs1⟩⟩
    · rw [show cleanRevB ([] : List (String × Int × Bool)) = false from rfl] at h1
      simp at h1
    all_goals rcases c2 with _ | ⟨s2, _ | ⟨r2, rs2⟩⟩
    · rw [show cleanRevB ([] : List (String × Int × Bool)) = false from rfl] at h2
      simp at h2
    · rw [show renderRev [s1] = s1.1 from rfl, show renderRev [s2] = s2.1 from rfl] at hr
      rw [show visible [s1] = [(s1.1, none, false)] from rfl,
        show visible [s2] = [(s2.1, none, false)] from rfl, hr]
    · exact absurd hr (render_single_ne_conscons s1 s2 r2 rs2 h1 h2)
    · rw [show cleanRevB ([] : List (String × Int × Bool)) = false from rfl] at h2
      simp at h2
    · exact absurd hr.symm (render_single_ne_conscons s2 s1 r1 rs1 h2 h1)
    · obtain ⟨hname1, _, hrnp1, hrest1⟩ := cleanRevB_cons_parts s1 r1 rs1 h1
      obtain ⟨hname2, _, hrnp2, hrest2⟩ := cleanRevB_cons_parts s2 r2 rs2 h2
      have hlen' : (r1 :: rs1).length ≤ n := by
        simp at hlen ⊢
        omega
      have hvq : visible (s1 :: r1 :: rs1) =
          (if s1.2.2 then "" else s1.1,
            if 0 ≤ s1.2.1 then some s1.2.1.toNat else none, s1.2.2) ::
            visible (r1 :: rs1) := rfl
      have hvq2 : visible (s2 :: r2 :: rs2) =
          (if s2.2.2 then "" else s2.1,
            if 0 ≤ s2.2.1 then some s2.2.1.toNat else none, s2.2.2) ::
            visible (r2 :: rs2) := rfl
      have hdata := congrArg String.data hr
      by_cases hp1 : s1.2.2 = true <;> by_cases hp2 : s2.2.2 = true
      · obtain ⟨hpos1, hd1⟩ := renderRev_prim_decomp s1 r1 rs1 h1 hp1
        obtain ⟨hpos2, hd2⟩ := renderRev_prim_decomp s2 r2 rs2 h2 hp2
        rw [hd1, hd2] at hdata
        have hstrip : (renderRev (r1 :: rs1)).data ++ '[' :: natDigitsL s1.2.1.toNat =
            (renderRev (r2 :: rs2)).data ++ '[' :: natDigitsL s2.2.1.toNat := by
          have hdl := congrArg List.dropLast hdata
          rw [List.dropLast_concat, List.dropLast_concat] at hdl
          exact hdl
        obtain ⟨hA, hD⟩ := last_sep_decomp '[' _ _ _ _
          (fun c hc => (natDigitsL_clean _ c hc).1)
          (fun c hc => (natDigitsL_clean _ c hc).1) hstrip
        have hscope : renderRev (r1 :: rs1) = renderRev (r2 :: rs2) := String.ext hA
        have hvis := ih (r1 :: rs1) (r2 :: rs2) hlen' hrest1 hrest2 hscope
        have hidx : s1.2.1 = s2.2.1 := by
          have := natDigitsL_inj _ _ hD
          omega
        rw [hvq, hvq2, hvis, hp1, hp2, hidx]
        simp
      · have hsp1 := renderRev_spec (s1 :: r1 :: rs1).length (s1 :: r1 :: rs1)
          (le_refl _) h1
        have hsp2 := renderRev_spec (s2 :: r2 :: rs2).length (s2 :: r2 :: rs2)
          (le_refl _) h2
        have hend1 := hsp1.2.2.1 (by
          rw [show endsBracketB (s1 :: r1 :: rs1) = s1.2.2 from rfl]
          exact hp1)
        rw [hr] at hend1
        have := hsp2.2.2.2 (by
          rw [show endsBracketB (s2 :: r2 :: rs2) = s2.2.2 from rfl]
          cases hsb : s2.2.2
          · rfl
          · exact absurd hsb hp2) ']' hend1
        exact absurd rfl this.2.1
      · have hsp1 := renderRev_spec (s1 :: r1 :: rs1).length (s1 :: r1 :: rs1)
          (le_refl _) h1
        have hsp2 := renderRev_spec (s2 :: r2 :: rs2).length (s2 :: r2 :: rs2)
          (le_refl _) h2
        have hend2 := hsp2.2.2.1 (by
          rw [show endsBracketB (s2 :: r2 :: rs2) = s2.2.2 from rfl]
          exact hp2)
        rw [← hr] at hend2
        have := hsp1.2.2.2 (by
          rw [show endsBracketB (s1 :: r1 :: rs1) = s1.2.2 from rfl]
          cases hsb : s1.2.2
          · rfl
          · exact absurd hsb hp1) ']' hend2
        exact absurd rfl this.2.1
      · have hp1' : s1.2.2 = false := by
          cases hsb : s1.2.2
          · rfl
          · exact absurd hsb hp1
        have hp2' : s2.2.2 = false := by
          cases hsb : s2.2.2
          · rfl
          · exact absurd hsb hp2
        have hd1 := renderRev_nonprim_decomp s1 r1 rs1 h1 hp1'
        have hd2 := renderRev_nonprim_decomp s2 r2 rs2 h2 hp2'
        rw [hd1, hd2] at hdata
        have e1 : ∀ (X nm : List Char), (X ++ ['.']) ++ nm = X ++ '.' :: nm := by
          intro X nm
          rw [List.append_assoc, List.singleton_append]
        rw [e1, e1] at hdata
        have hcn1 := cleanNameB_spec s1.1 hname1
        have hcn2 := cleanNameB_spec s2.1 hname2
        obtain ⟨hX, hnm⟩ := last_sep_decomp '.' _ _ _ _
          (fun c hc => (hcn1.2 c hc).2.2) (fun c hc => (hcn2.2 c hc).2.2) hdata
        have hname : s1.1 = s2.1 := String.ext hnm
        have hsprest1 := renderRev_spec (r1 :: rs1).length (r1 :: rs1) (le_refl _) hrest1
        have hsprest2 := renderRev_spec (r2 :: rs2).length (r2 :: rs2) (le_refl _) hrest2
        have hebr1 : endsBracketB (r1 :: rs1) = false := by
          match rs1 with
          | [] => rfl
          | t :: ts => rw [show endsBracketB (r1 :: t :: ts) = r1.2.2 from rfl, hrnp1]
        have hebr2 : endsBracketB (r2 :: rs2) = false := by
          match rs2 with
          | [] => rfl
          | t :: ts => rw [show endsBracketB (r2 :: t :: ts) = r2.2.2 from rfl, hrnp2]
        by_cases hpos1 : 0 ≤ s1.2.1 <;> by_cases hpos2 : 0 ≤ s2.2.1
        · rw [if_pos hpos1, if_pos hpos2] at hX
          have hstrip : (renderRev (r1 :: rs1)).data ++ '[' :: natDigitsL s1.2.1.toNat =
              (renderRev (r2 :: rs2)).data ++ '[' :: natDigitsL s2.2.1.toNat := by
            have hdl := congrArg List.dropLast hX
            rw [List.dropLast_concat, List.dropLast_concat] at hdl
            exact hdl
          obtain ⟨hA, hD⟩ := last_sep_decomp '[' _ _ _ _
            (fun c hc => (natDigitsL_clean _ c hc).1)
            (fun c hc => (natDigitsL_clean _ c hc).1) hstrip
          have hscope : renderRev (r1 :: rs1) = renderRev (r2 :: rs2) := String.ext hA
          have hvis := ih (r1 :: rs1) (r2 :: rs2) hlen' hrest1 hrest2 hscope
          have hidx : s1.2.1 = s2.2.1 := by
            have := natDigitsL_inj _ _ hD
            omega
          rw [hvq, hvq2, hvis, hp1', hp2', hidx, hname]
        · rw [if_pos hpos1, if_neg hpos2] at hX
          have hend1 : (((renderRev (r1 :: rs1)).data ++
              '[' :: natDigitsL s1.2.1.toNat) ++ [']']).getLast? = some ']' :=
            List.getLast?_concat _
          rw [hX] at hend1
          have := hsprest2.2.2.2 hebr2 ']' hend1
          exact absurd rfl this.2.1
        · rw [if_neg hpos1, if_pos hpos2] at hX
          have hend2 : (((renderRev (r2 :: rs2)).data ++
              '[' :: natDigitsL s2.2.1.toNat) ++ [']']).getLast? = some ']' :=
            List.getLast?_concat _
          rw [← hX] at hend2
          have := hsprest1.2.2.2 hebr1 ']' hend2
          exact absurd rfl this.2.1
        · rw [if_neg hpos1, if_neg hpos2] at hX
          have hscope : renderRev (r1 :: rs1) = renderRev (r2 :: rs2) := String.ext hX
          have hvis := ih (r1 :: rs1) (r2 :: rs2) hlen' hrest1 hrest2 hscope
          rw [hvq, hvq2, hvis, hp1', hp2', hname, if_neg hpos1, if_neg hpos2]

/-- Claim C6 (amended): FullName implements an addressing contract only up
to rendered addresses, and only for metacharacter-free names: for any two
attributes with consistent parent chains whose chain signatures are clean
(nonempty json names free of bracket and dot characters, primitive
elements only at the end of a chain and carrying their nonnegative index),
equal full names force equal visible addresses - the same rendered name at
every level and the same rendered list indices.  Distinct addresses
therefore always render distinctly.  Without the cleanliness precondition
the contract fails: the counterexample exhibits two distinct walk
attributes with per-level distinct names, one of them bracketed, whose
full names coincide. -/
theorem C6_fullname_addressing (a b : StructAttribute)
    (ha : ChainConsistent a) (hb : ChainConsistent b)
    (hca : cleanRevB (chainRev a) = true) (hcb : cleanRevB (chainRev b) = true)
    (h : a.FullName = b.FullName) :
    visible (chainRev a) = visible (chainRev b) := by
  have h1 := fullname_eq_renderRev a.Parents.length a (le_refl _) ha
  have h2 := fullname_eq_renderRev b.Parents.length b (le_refl _) hb
  refine renderRev_inj (chainRev a).length (chainRev a) (chainRev b) (le_refl _)
    hca hcb ?_
  rw [← h1, ← h2, h]

/-- Witness for C6: two distinct synthesized element attributes (values x
and y) sitting at the same clean address emails[0] have equal full names,
and the theorem reports their visible addresses as equal. -/
theorem C6_witness :
    (c2Child "x" "emails[0]" 0).Value.goString ≠
      (c2Child "y" "emails[0]" 0).Value.goString ∧
    cleanRevB (chainRev (c2Child "x" "emails[0]" 0)) = true ∧
    visible (chainRev (c2Child "x" "emails[0]" 0)) =
      visible (chainRev (c2Child "y" "emails[0]" 0)) := by
  have hsa : c2Sa.FullName = "emails" := by
    rw [c2Sa, StructAttribute.FullName]
    decide
  have hfa : (c2Child "x" "emails[0]" 0).FullName = "emails[0]" := by
    rw [show c2Child "x" "emails[0]" 0 = StructAttribute.mk (.str "x")
      ⟨"emails[0]", c2TagStripped, false⟩ [c2Sa] [] 0 true from rfl,
      StructAttribute.FullName]
    simp [List.getLast, hsa, intSprint, natDigitsL]
  have hfb : (c2Child "y" "emails[0]" 0).FullName = "emails[0]" := by
    rw [show c2Child "y" "emails[0]" 0 = StructAttribute.mk (.str "y")
      ⟨"emails[0]", c2TagStripped, false⟩ [c2Sa] [] 0 true from rfl,
      StructAttribute.FullName]
    simp [List.getLast, hsa, intSprint, natDigitsL]
  refine ⟨by decide, by decide,
    C6_fullname_addressing (c2Child "x" "emails[0]" 0) (c2Child "y" "emails[0]" 0)
      ?_ ?_ (by decide) (by decide) (hfa.trans hfb.symm)⟩
  · intro i h
    have h1 : i < 1 := by
      simpa [c2Child, StructAttribute.Parents] using h
    interval_cases i
    rfl
  · intro i h
    have h1 : i < 1 := by
      simpa [c2Child, StructAttribute.Parents] using h
    interval_cases i
    rfl

end GoStructs
